import Mathlib

/-!
Verification of the multisig orchestrator server.

This file gives a shallow embedding, in Lean, of the parts of the
`multisig-server` crate that the specification's claims concern:

* the proposal status machine and the compare-and-set transition
  (`proposal_store.rs`),
* the owner-rule JSON parser (`gateway.rs`),
* the signature collector (`signature_collector.rs`),
* the validity monitor tick (`validity_monitor.rs`),
* the subintent builder and main-transaction composer
  (`transaction_builder.rs`).

Database tables are modelled as Lean lists, SQL `UPDATE ... WHERE` as a
`List.map` guarded by the `WHERE` predicate, and the async store calls as
pure state-passing functions.  JSON numbers are modelled as naturals
(the domain on which serde's `as_u64` succeeds).  The external
transaction codec and the Ed25519 primitives are out of scope for the
specification and are modelled as opaque-but-concrete pure functions.
-/

namespace Multisig

/-! ## Substring search (Rust `str::contains`) -/

/-- Rust `haystack.contains(needle)` on character lists. -/
def containsSub (needle : List Char) : List Char → Bool
  | [] => needle.isEmpty
  | c :: t => needle.isPrefixOf (c :: t) || containsSub needle t

/-- Rust `haystack.contains(needle)` on strings. -/
def strContains (haystack needle : String) : Bool :=
  containsSub needle.data haystack.data

/-! ## JSON model (serde_json subset)

Numbers are modelled as naturals: the fragment of JSON numbers on which
`as_u64` succeeds.  Missing-key indexing yields `null`, as serde's `Value`
indexing does. -/

inductive Json where
  | null : Json
  | num : Nat → Json
  | str : String → Json
  | arr : List Json → Json
  | obj : List (String × Json) → Json

/-- serde `value["key"]`: object lookup, `null` when absent or not an object. -/
def Json.index (j : Json) (k : String) : Json :=
  match j with
  | .obj fields =>
    match fields.find? (fun p => p.1 == k) with
    | some p => p.2
    | none => .null
  | _ => .null

/-- serde `as_str`. -/
def Json.asStr : Json → Option String
  | .str s => some s
  | _ => none

/-- serde `as_u64` (on the modelled natural-number fragment). -/
def Json.asU64 : Json → Option Nat
  | .num n => some n
  | _ => none

/-- serde `as_array`. -/
def Json.asArray : Json → Option (List Json)
  | .arr l => some l
  | _ => none

/-! ## Access-rule parser (`gateway.rs`) -/

/-- `SignerInfo` from `gateway.rs`. -/
structure SignerInfo where
  key_hash : String
  key_type : String
  badge_resource : String
  badge_local_id : String
deriving Repr, DecidableEq

/-- `AccessRuleInfo` from `gateway.rs`.  `threshold` is a Rust `u8`;
we carry it as a natural, with the `as u8` cast written `% 256` at the
cast sites. -/
structure AccessRuleInfo where
  signers : List SignerInfo
  threshold : Nat
  is_updatable : Bool
deriving Repr, DecidableEq

/-- Rust `simple_rep.trim_start_matches('[').trim_end_matches(']')`:
drop every leading `[` and every trailing `]`. -/
def stripBrackets (s : String) : String :=
  ⟨((s.data.dropWhile (fun c => c = '[')).reverse.dropWhile
      (fun c => c = ']')).reverse⟩

/-- The key-type inference from the badge resource address. -/
def keyTypeOf (resource_address : String) : String :=
  if strContains resource_address "ed25sg" then "EddsaEd25519"
  else if strContains resource_address "secpsg" then "EcdsaSecp256k1"
  else "Unknown"

/-- `parse_non_fungible_requirement` from `gateway.rs`. -/
def parse_non_fungible_requirement (req : Json) : Except String SignerInfo :=
  match (req.index "type").asStr with
  | none => .error ("Missing type in requirement")
  | some req_type =>
    if req_type ≠ "NonFungible" then
      .error ("Expected NonFungible requirement, got: " ++ req_type)
    else
      let nf := req.index "non_fungible"
      match (nf.index "resource_address").asStr with
      | none => .error ("Missing resource_address in NonFungible")
      | some resource_address =>
        match ((nf.index "local_id").index "simple_rep").asStr with
        | none => .error ("Missing simple_rep in local_id")
        | some simple_rep =>
          .ok { key_hash := stripBrackets simple_rep,
                key_type := keyTypeOf resource_address,
                badge_resource := resource_address,
                badge_local_id := simple_rep }

/-- Rust `iter().map(f).collect::<Result<Vec<_>, _>>()`: first error wins. -/
def collectResults {α β : Type} (f : α → Except String β) :
    List α → Except String (List β)
  | [] => .ok []
  | a :: t =>
    match f a with
    | .error e => .error e
    | .ok b =>
      match collectResults f t with
      | .error e => .error e
      | .ok bs => .ok (b :: bs)

/-- `parse_count_of` from `gateway.rs`.  `count as u8` is `% 256`. -/
def parse_count_of (proof_rule : Json) : Except String AccessRuleInfo :=
  match (proof_rule.index "count").asU64 with
  | none => .error ("Missing count in CountOf rule")
  | some count =>
    match (proof_rule.index "list").asArray with
    | none => .error ("Missing list in CountOf rule")
    | some list =>
      match collectResults parse_non_fungible_requirement list with
      | .error e => .error e
      | .ok signers =>
        .ok { signers := signers, threshold := count % 256, is_updatable := false }

/-- `parse_require` from `gateway.rs`. -/
def parse_require (proof_rule : Json) : Except String AccessRuleInfo :=
  match parse_non_fungible_requirement (proof_rule.index "requirement") with
  | .error e => .error e
  | .ok signer => .ok { signers := [signer], threshold := 1, is_updatable := false }

/-- `parse_all_of` from `gateway.rs`.  `signers.len() as u8` is `% 256`. -/
def parse_all_of (proof_rule : Json) : Except String AccessRuleInfo :=
  match (proof_rule.index "list").asArray with
  | none => .error ("Missing list in AllOf rule")
  | some list =>
    match collectResults parse_non_fungible_requirement list with
    | .error e => .error e
    | .ok signers =>
      .ok { signers := signers, threshold := signers.length % 256,
            is_updatable := false }

/-- `parse_any_of` from `gateway.rs`. -/
def parse_any_of (proof_rule : Json) : Except String AccessRuleInfo :=
  match (proof_rule.index "list").asArray with
  | none => .error ("Missing list in AnyOf rule")
  | some list =>
    match collectResults parse_non_fungible_requirement list with
    | .error e => .error e
    | .ok signers =>
      .ok { signers := signers, threshold := 1, is_updatable := false }

/-- `parse_access_rule` from `gateway.rs`. -/
def parse_access_rule (rule_json : Json) : Except String AccessRuleInfo :=
  match (rule_json.index "type").asStr with
  | none => .error ("Missing type in owner rule")
  | some rule_type =>
    if rule_type = "Protected" then
      let proof_rule := (rule_json.index "access_rule").index "proof_rule"
      match (proof_rule.index "type").asStr with
      | none => .error ("Missing type in proof_rule")
      | some proof_rule_type =>
        if proof_rule_type = "CountOf" then parse_count_of proof_rule
        else if proof_rule_type = "Require" then parse_require proof_rule
        else if proof_rule_type = "AllOf" then parse_all_of proof_rule
        else if proof_rule_type = "AnyOf" then parse_any_of proof_rule
        else .error ("Unsupported proof_rule type: " ++ proof_rule_type)
    else if rule_type = "AllowAll" then
      .ok { signers := [], threshold := 0, is_updatable := false }
    else if rule_type = "DenyAll" then
      .error ("Account has DenyAll access rule")
    else .error ("Unsupported rule type: " ++ rule_type)

/-! ## Proposal status machine (`proposal_store.rs`) -/

inductive ProposalStatus where
  | Created | Signing | Ready | Submitting | Committed | Failed | Expired | Invalid
deriving Repr, DecidableEq

/-- `ProposalStatus::can_transition_to` from `proposal_store.rs`. -/
def ProposalStatus.can_transition_to : ProposalStatus → ProposalStatus → Bool
  | .Created, .Signing => true
  | .Signing, .Ready => true
  | .Ready, .Submitting => true
  | .Submitting, .Committed => true
  | .Submitting, .Failed => true
  | .Created, .Expired => true
  | .Signing, .Expired => true
  | .Ready, .Expired => true
  | .Created, .Invalid => true
  | .Signing, .Invalid => true
  | .Ready, .Invalid => true
  | _, _ => false

/-- The `status IN ('created', 'signing', 'ready')` guard used by
`list_active`, `mark_expired` and `mark_invalid`. -/
def ProposalStatus.isActive : ProposalStatus → Bool
  | .Created => true
  | .Signing => true
  | .Ready => true
  | _ => false

/-- One row of the `proposals` table (the columns the claims involve). -/
structure ProposalRow where
  id : Nat
  status : ProposalStatus
  epoch_max : Nat
  invalid_reason : Option String
deriving Repr, DecidableEq

/-- One row of the `signatures` table. -/
structure SigRow where
  proposal_id : Nat
  signer_key_hash : String
  signer_public_key : String
  signature_bytes : List Nat
  is_valid : Bool
deriving Repr, DecidableEq

/-- The relational store: `proposals` and `signatures` tables. -/
structure DbState where
  proposals : List ProposalRow
  signatures : List SigRow
deriving Repr, DecidableEq

/-- `SELECT ... FROM signatures WHERE proposal_id = $1` (in insertion
order, matching `ORDER BY created_at ASC`). -/
def sigRowsOf (db : DbState) (pid : Nat) : List SigRow :=
  db.signatures.filter (fun r => r.proposal_id == pid)

/-- `SELECT ... FROM proposals WHERE id = $1` (`fetch_optional`). -/
def getProposal (db : DbState) (id : Nat) : Option ProposalRow :=
  db.proposals.find? (fun p => p.id == id)

/-- `ProposalStore::transition_status`: the compare-and-set
`UPDATE proposals SET status = to WHERE id = $id AND status = from`,
rejected up-front when the edge is not in `can_transition_to`, and
rejected with a conflict error when zero rows were affected.  The second
component is the store after the call (unchanged on error). -/
def transition_status (db : DbState) (id : Nat) (f t : ProposalStatus) :
    Except String Unit × DbState :=
  if ¬ f.can_transition_to t then
    (Except.error ("Invalid status transition"), db)
  else
    let updated := db.proposals.map fun p =>
      if p.id == id && p.status == f then { p with status := t } else p
    if db.proposals.any (fun p => p.id == id && p.status == f) then
      (Except.ok (), { db with proposals := updated })
    else
      (Except.error ("Proposal not found or not in expected status"), db)

/-! ## Store helpers shared by the collector and the monitor -/

/-- `SELECT COUNT(*) FROM signatures WHERE proposal_id = $1` — note: no
`is_valid` filter. -/
def count_signatures (db : DbState) (pid : Nat) : Nat :=
  (sigRowsOf db pid).length

/-- `SELECT COUNT(*) FROM signatures WHERE proposal_id = $1 AND is_valid = TRUE`. -/
def count_valid_signatures (db : DbState) (pid : Nat) : Nat :=
  (db.signatures.filter (fun r => r.proposal_id == pid && r.is_valid)).length

/-- `get_raw_signatures`: `(public_key_hex, signature_bytes)` for all
signatures on a proposal, in stored order — note: no `is_valid` filter. -/
def get_raw_signatures (db : DbState) (pid : Nat) : List (String × List Nat) :=
  (sigRowsOf db pid).map (fun r => (r.signer_public_key, r.signature_bytes))

/-- `get_signature_key_hashes`: `(key_hash, is_valid)` pairs. -/
def get_signature_key_hashes (db : DbState) (pid : Nat) : List (String × Bool) :=
  (sigRowsOf db pid).map (fun r => (r.signer_key_hash, r.is_valid))

/-- `INSERT INTO signatures ...` (append; `created_at` order is list order). -/
def insertSignature (db : DbState) (row : SigRow) : DbState :=
  { db with signatures := db.signatures ++ [row] }

/-- `mark_expired`: `UPDATE proposals SET status='expired',
invalid_reason='Proposal epoch window has passed' WHERE id AND status IN
active`.  The monitor ignores the zero-rows error, so the no-row case is a
no-op here. -/
def mark_expired (db : DbState) (id : Nat) : DbState :=
  { db with proposals := db.proposals.map fun p =>
      if p.id == id && p.status.isActive then
        { p with status := .Expired,
                 invalid_reason := some ("Proposal epoch window has passed") }
      else p }

/-- `mark_invalid`: `UPDATE proposals SET status='invalid', invalid_reason=$1
WHERE id AND status IN active`. -/
def mark_invalid (db : DbState) (id : Nat) (reason : String) : DbState :=
  { db with proposals := db.proposals.map fun p =>
      if p.id == id && p.status.isActive then
        { p with status := .Invalid, invalid_reason := some reason }
      else p }

/-- `invalidate_signature`: `UPDATE signatures SET is_valid = FALSE WHERE
proposal_id = $1 AND signer_key_hash = $2`. -/
def invalidate_signature (db : DbState) (pid : Nat) (kh : String) : DbState :=
  { db with signatures := db.signatures.map fun r =>
      if r.proposal_id == pid && r.signer_key_hash == kh then
        { r with is_valid := false }
      else r }

/-- `list_active`: proposals with `status IN ('created','signing','ready')`. -/
def list_active (db : DbState) : List ProposalRow :=
  db.proposals.filter (fun p => p.status.isActive)

/-! ## Signature collector (`signature_collector.rs`)

The wallet-returned hex payload is abstracted by the values the external
codec derives from it: the re-derived sub-intent hash (`prepare`), whether
the root signature list is non-empty, the scheme of its first signature,
and that signature's public key and bytes.  The codec itself is an
out-of-scope black box; this record is its observable output on a
successfully decoded payload. -/

structure WalletSubmission where
  /-- The bech32 sub-intent hash `prepare` re-derives from the wire bytes. -/
  subintent_hash : String
  /-- Whether `root_subintent_signatures` is non-empty. -/
  has_signatures : Bool
  /-- Whether the first root signature is Ed25519 (else Secp256k1). -/
  first_is_ed25519 : Bool
  /-- Hex of the first signature's public key. -/
  public_key_hex : String
  /-- Raw bytes of the first signature. -/
  signature_bytes : List Nat
deriving Repr, DecidableEq

/-- `compute_subintent_hash_from_signed_partial_hex`: re-derive the root
sub-intent hash; fails on unsupported networks (decode failures are outside
the modelled universe of decodable payloads). -/
def compute_subintent_hash_from_signed_partial_hex (w : WalletSubmission)
    (network_id : Nat) : Except String String :=
  if network_id == 0x01 || network_id == 0x02 || network_id == 0xf2 then
    Except.ok w.subintent_hash
  else
    Except.error ("Unsupported network ID")

/-- `extract_signature_from_hex`: first root signature and its public key;
rejects empty signature sets and Secp256k1. -/
def extract_signature_from_hex (w : WalletSubmission) :
    Except String (List Nat × String) :=
  if ¬ w.has_signatures then
    Except.error ("Signed partial transaction has no signatures")
  else if ¬ w.first_is_ed25519 then
    Except.error ("Secp256k1 signatures not yet supported (public key recovery needed)")
  else
    Except.ok (w.signature_bytes, w.public_key_hex)

/-- The ledger's 29-byte hash of a public key (`pk.get_hash()`), an
out-of-scope primitive, modelled as an injective tagging of the key hex. -/
def ledgerKeyHash (public_key_hex : String) : String :=
  "vkh" ++ public_key_hex

/-- `compute_key_hash`: length-check the key (32 bytes = 64 hex chars),
then hash it ledger-style. -/
def compute_key_hash (public_key_hex : String) : Except String String :=
  if public_key_hex.length ≠ 64 then
    Except.error ("Invalid Ed25519 public key length")
  else
    Except.ok (ledgerKeyHash public_key_hex)

/-- The wrong-sub-intent rejection message of `add_signature`. -/
def mismatchMsg (expected got : String) : String :=
  "Wallet produced a different subintent hash (expected "
    ++ expected ++ ", got " ++ got
    ++ "). Your wallet may not support custom subintent headers — please update your Radix Wallet."

/-- `SignatureCollector::add_signature`, with the store threaded
explicitly.  The second component is the store after the call; every
rejection happens before any mutation, so the store is returned unchanged
on those paths. -/
def add_signature (db : DbState) (proposal_id : Nat) (w : WalletSubmission)
    (access_rule : AccessRuleInfo) (expected_subintent_hash : String)
    (network_id : Nat) : Except String Unit × DbState :=
  match compute_subintent_hash_from_signed_partial_hex w network_id with
  | .error e => (.error e, db)
  | .ok wallet_subintent_hash =>
    if wallet_subintent_hash ≠ expected_subintent_hash then
      (.error (mismatchMsg expected_subintent_hash wallet_subintent_hash), db)
    else
      match extract_signature_from_hex w with
      | .error e => (.error e, db)
      | .ok (sig_bytes, public_key_hex) =>
        match compute_key_hash public_key_hex with
        | .error e => (.error e, db)
        | .ok key_hash =>
          if ¬ access_rule.signers.any (fun s => s.key_hash == key_hash) then
            (.error ("Signer with key hash " ++ key_hash
                ++ " is not in the current access rule"), db)
          else
            match getProposal db proposal_id with
            | none => (.error ("Proposal not found"), db)
            | some proposal =>
              if proposal.status ≠ .Created ∧ proposal.status ≠ .Signing then
                (.error ("Proposal is in a non-signable status; signatures can only be added in Created or Signing"),
                 db)
              else if (sigRowsOf db proposal_id).any
                  (fun r => r.signer_key_hash == key_hash) then
                (.error ("Signer " ++ key_hash ++ " has already signed this proposal"),
                 db)
              else
                let db1 := insertSignature db
                  { proposal_id := proposal_id, signer_key_hash := key_hash,
                    signer_public_key := public_key_hex,
                    signature_bytes := sig_bytes, is_valid := true }
                let sig_count := count_signatures db1 proposal_id
                let step1 := if proposal.status = .Created then
                    transition_status db1 proposal_id .Created .Signing
                  else (.ok (), db1)
                match step1.1 with
                | .error e => (.error e, step1.2)
                | .ok _ =>
                  if access_rule.threshold ≤ sig_count then
                    let step2 := transition_status step1.2 proposal_id .Signing .Ready
                    match step2.1 with
                    | .error e => (.error e, step2.2)
                    | .ok _ => (.ok (), step2.2)
                  else (.ok (), step1.2)

/-- The error-to-HTTP-status mapping of the `sign_proposal` handler in
`main.rs`. -/
def sign_error_http_status (msg : String) : Nat :=
  if strContains msg "not found" then 404
  else if strContains msg "not in the current access rule"
      || strContains msg "already signed"
      || strContains msg "status"
      || strContains msg "different subintent hash" then 400
  else 500

/-! ## Validity monitor (`validity_monitor.rs`) -/

/-- The `{}...{}` key-hash abbreviation used in the invalidation reason
(first 8 and last 6 characters; hashes are 58-char hex in practice). -/
def abbrevHash (h : String) : String :=
  ⟨h.data.take 8⟩ ++ "..." ++ ⟨h.data.drop (h.data.length - 6)⟩

/-- The `mark_invalid` reason built by the monitor. -/
def mkInvalidReason (removed_signers : List String) : String :=
  "Access rule changed — signer(s) removed: "
    ++ String.intercalate (", ") (removed_signers.map abbrevHash)

/-- The live rule's key-hash set (`current_hashes`). -/
def liveHashes (rule : AccessRuleInfo) : List String :=
  rule.signers.map (fun s => s.key_hash)

/-- One iteration of the monitor's inner signature loop: invalidate the
signature when it is still valid and its signer left the live rule. -/
def invalidateStep (pid : Nat) (live : List String)
    (acc : DbState × List String) (kv : String × Bool) : DbState × List String :=
  if kv.2 && !(live.contains kv.1) then
    (invalidate_signature acc.1 pid kv.1, acc.2 ++ [kv.1])
  else acc

/-- Phase-B processing of a single still-active proposal: skip unless
`Signing`/`Ready`; invalidate signatures of removed signers; when any were
removed, recount and `mark_invalid` below threshold. -/
def phase2ProcessOne (live : List String) (threshold : Nat)
    (db : DbState) (p : ProposalRow) : DbState :=
  if ¬ (p.status = .Signing ∨ p.status = .Ready) then db
  else
    let step := (get_signature_key_hashes db p.id).foldl (invalidateStep p.id live) (db, [])
    if step.2.isEmpty then step.1
    else if count_valid_signatures step.1 p.id < threshold then
      mark_invalid step.1 p.id (mkInvalidReason step.2)
    else step.1

/-- One iteration of the monitor's expiry loop (`Phase 1`). -/
def expireStep (current_epoch : Nat) (acc : DbState × List ProposalRow)
    (p : ProposalRow) : DbState × List ProposalRow :=
  if p.epoch_max ≤ current_epoch then (mark_expired acc.1 p.id, acc.2)
  else (acc.1, acc.2 ++ [p])

/-- `check_proposals`: one validity-monitor tick, with `current_epoch` and
the live `access_rule` (both read from the gateway) passed as inputs. -/
def check_proposals (db : DbState) (current_epoch : Nat)
    (access_rule : AccessRuleInfo) : DbState :=
  let proposals := list_active db
  if proposals.isEmpty then db
  else
    let phase1 := proposals.foldl (expireStep current_epoch) (db, [])
    if phase1.2.any (fun p => p.status == .Signing || p.status == .Ready) then
      phase1.2.foldl
        (phase2ProcessOne (liveHashes access_rule) access_rule.threshold) phase1.1
    else phase1.1

/-- The key hashes the monitor's inner loop selects for invalidation out
of a list of `(key_hash, is_valid)` pairs: still valid and out of the
live rule, in stored order. -/
def selectedOf (live : List String) (pairs : List (String × Bool)) :
    List String :=
  (pairs.filter (fun kv => kv.2 && !(live.contains kv.1))).map (fun kv => kv.1)

/-- The signers the monitor's loop removes on a proposal. -/
def removedOf (db : DbState) (live : List String) (pid : Nat) : List String :=
  selectedOf live (get_signature_key_hashes db pid)

/-- Simultaneous invalidation of a set of signers on one proposal (the
accumulated effect of the monitor's sequence of `invalidate_signature`
calls). -/
def invalidateMany (pid : Nat) (khs : List String) (r : SigRow) : SigRow :=
  if r.proposal_id == pid && khs.contains r.signer_key_hash then
    { r with is_valid := false }
  else r

/-- The proposal rows carrying a given id (a singleton under the primary
key). -/
def propRowsOf (db : DbState) (id : Nat) : List ProposalRow :=
  db.proposals.filter (fun p => p.id == id)

/-- The count of signatures on a proposal that are both still valid and
from signers still in the live rule — the valid count the monitor sees
after its invalidation pass. -/
def liveValidCount (db : DbState) (live : List String) (pid : Nat) : Nat :=
  ((sigRowsOf db pid).filter
      (fun r => r.is_valid && live.contains r.signer_key_hash)).length

/-! ## Subintent builder (`transaction_builder.rs`)

The transaction codec (manifest compilation, SBOR serialization, hashing,
bech32m encoding) is an out-of-scope black-box library with a declared
determinism contract; it is modelled by concrete pure functions: a
compiled manifest is the pairing of the full manifest text with the
network, serialization is an invertible flat encoding of the header and
manifest, and the bech32m hash is an injective rendering of the canonical
bytes behind the network's HRP. -/

inductive NetworkDefinition where
  | simulator | stokenet | mainnet
deriving Repr, DecidableEq

/-- The network-id match at the top of both builder functions. -/
def networkFromId (network_id : Nat) : Except String NetworkDefinition :=
  if network_id = 0xf2 then .ok .simulator
  else if network_id = 0x02 then .ok .stokenet
  else if network_id = 0x01 then .ok .mainnet
  else .error ("Unsupported network ID")

structure IntentHeaderV2 where
  network_id : Nat
  start_epoch_inclusive : Nat
  end_epoch_exclusive : Nat
  intent_discriminator : Nat
  min_proposer_timestamp_inclusive : Option Nat
  max_proposer_timestamp_exclusive : Option Nat
deriving Repr, DecidableEq

/-- A compiled `SubintentManifestV2`: codec `compile_manifest`, modelled
as the pure pairing of the full manifest text with the network. -/
structure SubintentManifestV2 where
  text : String
  network : NetworkDefinition
deriving Repr, DecidableEq

def compile_manifest (text : String) (network : NetworkDefinition) :
    SubintentManifestV2 :=
  { text := text, network := network }

structure PartialTransactionV2 where
  intent_header : IntentHeaderV2
  manifest : SubintentManifestV2
deriving Repr, DecidableEq

def encodeString (s : String) : List Nat :=
  s.data.map (fun c => c.toNat)

def encodeOptionNat : Option Nat → List Nat
  | none => [0]
  | some t => [1, t]

/-- The serialized intent header: every header field, including the
optional proposer-timestamp bounds, is driven onto the wire. -/
def encodeHeader (h : IntentHeaderV2) : List Nat :=
  [h.network_id, h.start_epoch_inclusive, h.end_epoch_exclusive,
   h.intent_discriminator]
  ++ encodeOptionNat h.min_proposer_timestamp_inclusive
  ++ encodeOptionNat h.max_proposer_timestamp_exclusive

/-- Codec `to_raw`: the canonical byte serialization of a partial
transaction (header followed by the manifest body). -/
def serializePartialTransaction (pt : PartialTransactionV2) : List Nat :=
  encodeHeader pt.intent_header ++ encodeString pt.manifest.text

def decodeOptionNat : List Nat → Option (Option Nat × List Nat)
  | 0 :: rest => some (none, rest)
  | 1 :: t :: rest => some (some t, rest)
  | _ => none

/-- Read an intent header back off the wire (witnesses that the header,
timestamps included, is embedded in the serialized bytes). -/
def decodeHeader (bytes : List Nat) : Option (IntentHeaderV2 × List Nat) :=
  match bytes with
  | n :: se :: ee :: d :: rest =>
    match decodeOptionNat rest with
    | some (minTs, rest2) =>
      match decodeOptionNat rest2 with
      | some (maxTs, rest3) =>
        some ({ network_id := n, start_epoch_inclusive := se,
                end_epoch_exclusive := ee, intent_discriminator := d,
                min_proposer_timestamp_inclusive := minTs,
                max_proposer_timestamp_exclusive := maxTs }, rest3)
      | none => none
    | none => none
  | _ => none

def natListRender : List Nat → String
  | [] => ""
  | n :: t => toString n ++ "," ++ natListRender t

/-- The `subtxid_` HRP for each network. -/
def subintentHrp : NetworkDefinition → String
  | .mainnet => "subtxid_rdx_"
  | .stokenet => "subtxid_tdx_2_"
  | .simulator => "subtxid_sim_"

/-- The bech32m-encoded sub-intent hash: an injective function of the
canonical serialized bytes, behind the network's HRP. -/
def subintentHashOf (network : NetworkDefinition) (pt : PartialTransactionV2) :
    String :=
  subintentHrp network ++ natListRender (serializePartialTransaction pt)

/-- `SubintentResult` from the provided `transaction_builder.rs`. -/
structure SubintentResult where
  subintent_hash : String
  intent_discriminator : Nat
  partial_transaction_bytes : List Nat
deriving Repr, DecidableEq

/-- Rust `str::trim_end`: drop trailing whitespace. -/
def trimEnd (s : String) : String :=
  ⟨(s.data.reverse.dropWhile Char.isWhitespace).reverse⟩

/-- The `YIELD_TO_PARENT` appending at the top of the builder. -/
def appendYieldToParent (manifest_text : String) : String :=
  if strContains manifest_text "YIELD_TO_PARENT" then manifest_text
  else trimEnd manifest_text ++ "\nYIELD_TO_PARENT;\n"

/-- `build_unsigned_subintent_with_discriminator` from the provided
`transaction_builder.rs`: append `YIELD_TO_PARENT` if absent, resolve the
network, compile, wrap in a partial transaction whose header carries the
epoch window and discriminator (and no proposer timestamps), then hash
and serialize. -/
def build_unsigned_subintent_with_discriminator (manifest_text : String)
    (network_id : Nat) (epoch_min epoch_max : Nat) (discriminator : Nat) :
    Except String SubintentResult := do
  let full_manifest := appendYieldToParent manifest_text
  let network ← networkFromId network_id
  let manifest := compile_manifest full_manifest network
  let header : IntentHeaderV2 :=
    { network_id := network_id, start_epoch_inclusive := epoch_min,
      end_epoch_exclusive := epoch_max, intent_discriminator := discriminator,
      min_proposer_timestamp_inclusive := none,
      max_proposer_timestamp_exclusive := none }
  let pt : PartialTransactionV2 := { intent_header := header, manifest := manifest }
  pure { subintent_hash := subintentHashOf network pt,
         intent_discriminator := discriminator,
         partial_transaction_bytes := serializePartialTransaction pt }

/-- Modelled from the spec: the canonical subintent builder
`build_unsigned_subintent_from_compiled` that `create_proposal` in
`main.rs` calls is not among the provided sources — only its caller is
(the provided `transaction_builder.rs` is the earlier, deprecated
pipeline the spec's design notes mention).  Per the spec (§4.5): the
intent discriminator is drawn uniformly from `[0, 2^53)` (modelled as
`rng_draw % 2^53` for an arbitrary random word), `min_ts` is the current
unix time, `max_ts = min_ts + 86_400`, and both timestamps are embedded
in the intent header of the serialized partial transaction. -/
structure CanonicalSubintentResult where
  subintent_hash : String
  intent_discriminator : Nat
  min_proposer_timestamp : Nat
  max_proposer_timestamp : Nat
  partial_transaction_bytes : List Nat
deriving Repr, DecidableEq

/-- Modelled from the spec: see `CanonicalSubintentResult`. -/
def build_unsigned_subintent_from_compiled (manifest : SubintentManifestV2)
    (epoch_min epoch_max : Nat) (rng_draw : Nat) (now : Nat) :
    CanonicalSubintentResult :=
  let discriminator := rng_draw % 2 ^ 53
  let network_id : Nat :=
    match manifest.network with
    | .mainnet => 0x01
    | .stokenet => 0x02
    | .simulator => 0xf2
  let header : IntentHeaderV2 :=
    { network_id := network_id, start_epoch_inclusive := epoch_min,
      end_epoch_exclusive := epoch_max, intent_discriminator := discriminator,
      min_proposer_timestamp_inclusive := some now,
      max_proposer_timestamp_exclusive := some (now + 86400) }
  let pt : PartialTransactionV2 := { intent_header := header, manifest := manifest }
  { subintent_hash := subintentHashOf manifest.network pt,
    intent_discriminator := discriminator,
    min_proposer_timestamp := now,
    max_proposer_timestamp := now + 86400,
    partial_transaction_bytes := serializePartialTransaction pt }

/-! ## Transaction composer (spec-modelled) -/

structure TransactionHeaderV2 where
  notary_public_key : String
  notary_is_signatory : Bool
  tip_basis_points : Nat
deriving Repr, DecidableEq

/-- An instruction of the outer (main) manifest. -/
inductive MainManifestInstr where
  | lockFee (account : String) (amount_xrd : Nat)
  | yieldToChild (child_name : String)
deriving Repr, DecidableEq

/-- A signed partial transaction attached as a child (opaque wire bytes). -/
structure SignedChild where
  bytes : List Nat
deriving Repr, DecidableEq

structure NotarizedTransactionV2 where
  transaction_header : TransactionHeaderV2
  intent_header : IntentHeaderV2
  children : List (String × SignedChild)
  instructions : List MainManifestInstr
deriving Repr, DecidableEq

/-- Ed25519 public key of a private key: out-of-scope primitive, modelled
as an injective tagging. -/
def notaryPublicKeyOf (private_key_hex : String) : String :=
  "pub" ++ private_key_hex

/-- Modelled from the spec: the canonical `compose_main_transaction` that
`submit_proposal` in `main.rs` calls (five arguments: network, epoch, the
fee payer's private key and account, and the single signed child) is not
among the provided sources — only its caller is.  Per the spec (§4.8):
intent header `[current_epoch, current_epoch + 100)` with no timestamp
constraints and a fresh random discriminator; transaction header with the
fee payer's public key as notary, `notary_is_signatory = true` and
`tip_basis_points = 0`; exactly one child keyed `"withdrawal"`; outer
manifest `lock_fee(fee_payer_account, 10 XRD)` then
`yield_to_child("withdrawal", ())`. -/
def compose_main_transaction (network_id current_epoch : Nat)
    (fee_payer_private_key : String) (fee_payer_account : String)
    (withdrawal_signed : SignedChild) (discriminator : Nat) :
    NotarizedTransactionV2 :=
  { transaction_header :=
      { notary_public_key := notaryPublicKeyOf fee_payer_private_key,
        notary_is_signatory := true,
        tip_basis_points := 0 },
    intent_header :=
      { network_id := network_id, start_epoch_inclusive := current_epoch,
        end_epoch_exclusive := current_epoch + 100,
        intent_discriminator := discriminator,
        min_proposer_timestamp_inclusive := none,
        max_proposer_timestamp_exclusive := none },
    children := [("withdrawal", withdrawal_signed)],
    instructions :=
      [.lockFee fee_payer_account 10, .yieldToChild ("withdrawal")] }

/-! ## Claim-support definitions -/

/-- The transition edges exactly as the specification (§3) enumerates
them, for comparison with `can_transition_to`. -/
def claimEdges : List (ProposalStatus × ProposalStatus) :=
  [(.Created, .Signing), (.Created, .Expired), (.Created, .Invalid),
   (.Signing, .Ready), (.Signing, .Expired), (.Signing, .Invalid),
   (.Ready, .Submitting), (.Ready, .Expired), (.Ready, .Invalid),
   (.Submitting, .Committed), (.Submitting, .Failed)]

/-- An arbitrary reassignment of every signature's `is_valid` flag,
leaving all other columns untouched (used to show the flag is never
consulted outside the validity monitor). -/
def setFlags (f : SigRow → Bool) (db : DbState) : DbState :=
  { db with signatures := db.signatures.map fun r => { r with is_valid := f r } }

/-- Canonical NonFungible-requirement JSON, as the gateway returns it. -/
def mkNonFungibleReq (resource_address simple_rep : String) : Json :=
  .obj [("type", .str "NonFungible"),
        ("non_fungible",
          .obj [("resource_address", .str resource_address),
                ("local_id", .obj [("simple_rep", .str simple_rep)])])]

/-- Canonical `Protected` owner-rule JSON around a proof rule. -/
def mkProtectedRule (proof_rule : Json) : Json :=
  .obj [("type", .str "Protected"),
        ("access_rule", .obj [("proof_rule", proof_rule)])]

/-- Canonical `Protected`/`CountOf` owner-rule JSON. -/
def mkCountOfRule (count : Nat) (list : List Json) : Json :=
  mkProtectedRule (.obj [("type", .str "CountOf"), ("count", .num count),
                         ("list", .arr list)])

/-- Canonical `Protected`/`Require` owner-rule JSON. -/
def mkRequireRule (req : Json) : Json :=
  mkProtectedRule (.obj [("type", .str "Require"), ("requirement", req)])

/-- Canonical `Protected`/`AllOf` owner-rule JSON. -/
def mkAllOfRule (list : List Json) : Json :=
  mkProtectedRule (.obj [("type", .str "AllOf"), ("list", .arr list)])

/-- Canonical `Protected`/`AnyOf` owner-rule JSON. -/
def mkAnyOfRule (list : List Json) : Json :=
  mkProtectedRule (.obj [("type", .str "AnyOf"), ("list", .arr list)])

/-- A realistic Ed25519 badge requirement (the shape the gateway returns
for a virtual signature badge). -/
def c6Badge : Json :=
  mkNonFungibleReq
    ("resource_tdx_2_1nfxxxxxxxxxxed25sgxxxxxxxxx002236757237xxxxxxxxx3e2cpa")
    ("[a0c2219f58abcbc2ebd2da349acb10773ffbc37b6af91fa8df2486c9ea]")

/-- A `CountOf` owner rule whose `count` (256) exceeds the `u8` range. -/
def c6CountJson : Json := mkCountOfRule 256 [c6Badge]

/-- A small badge requirement for concrete evaluation. -/
def c6SmallBadge : Json := mkNonFungibleReq ("xed25sgx") ("[ab]")

/-- The signer `c6SmallBadge` parses to. -/
def c6SmallSigner : SignerInfo :=
  { key_hash := "ab", key_type := "EddsaEd25519",
    badge_resource := "xed25sgx", badge_local_id := "[ab]" }

/-- A one-proposal store for concrete evaluation of the status machine. -/
def dbC5 : DbState :=
  { proposals := [{ id := 1, status := .Created, epoch_max := 10,
                    invalid_reason := none }],
    signatures := [] }

/-- A 64-hex-char (32-byte) public key for concrete evaluation. -/
def pkC7 : String := "aaaaaaaaaaaaaaaaaaaaaaaaaaaaaaaaaaaaaaaaaaaaaaaaaaaaaaaaaaaaaaaa"

/-- A wallet submission matching proposal hash `"sub1"`. -/
def wC7 : WalletSubmission :=
  { subintent_hash := "sub1", has_signatures := true,
    first_is_ed25519 := true, public_key_hex := pkC7,
    signature_bytes := [1, 2, 3] }

/-- A 1-of-1 access rule containing `pkC7`'s key hash. -/
def ruleC7 : AccessRuleInfo :=
  { signers := [{ key_hash := ledgerKeyHash pkC7, key_type := "EddsaEd25519",
                  badge_resource := "res", badge_local_id := "[x]" }],
    threshold := 1, is_updatable := false }

/-- The single proposal row of the concrete collector store. -/
def rowC7 : ProposalRow :=
  { id := 1, status := .Created, epoch_max := 10, invalid_reason := none }

/-- A store holding one `Created` proposal and no signatures. -/
def dbC7 : DbState := { proposals := [rowC7], signatures := [] }

/-- An empty store for concrete evaluation of the wrong-hash rejection. -/
def dbC8 : DbState := { proposals := [], signatures := [] }

/-- A wallet submission whose re-derived hash is `"h1"`. -/
def wC8 : WalletSubmission :=
  { subintent_hash := "h1", has_signatures := true,
    first_is_ed25519 := true, public_key_hex := "pk",
    signature_bytes := [] }

/-- A key hash for a signer later removed from the live rule. -/
def sC4 : String := "abcdefgh12345678901234567890uvwxyz"

/-- A `Signing` proposal watched by the monitor. -/
def rowC4 : ProposalRow :=
  { id := 1, status := .Signing, epoch_max := 10, invalid_reason := none }

/-- A still-valid signature by the removed signer `sC4`. -/
def sigC4 : SigRow :=
  { proposal_id := 1, signer_key_hash := sC4, signer_public_key := "pk",
    signature_bytes := [], is_valid := true }

/-- Store with one signing proposal carrying `sC4`'s signature. -/
def dbC4 : DbState := { proposals := [rowC4], signatures := [sigC4] }

/-- A live rule that no longer contains `sC4` (threshold 1). -/
def ruleC4 : AccessRuleInfo :=
  { signers := [], threshold := 1, is_updatable := false }

/-! ## General lemmas -/

theorem decodeOptionNat_encode (o : Option Nat) (rest : List Nat) :
    decodeOptionNat (encodeOptionNat o ++ rest) = some (o, rest) := by
  cases o <;> rfl

theorem decodeHeader_encode (h : IntentHeaderV2) (rest : List Nat) :
    decodeHeader (encodeHeader h ++ rest) = some (h, rest) := by
  obtain ⟨n, se, ee, d, o1, o2⟩ := h
  cases o1 <;> cases o2 <;> rfl

theorem filter_map_comm {α : Type} (u : α → α) (pred : α → Bool)
    (h : ∀ x, pred (u x) = pred x) :
    ∀ l : List α, (l.map u).filter pred = (l.filter pred).map u := by
  intro l
  induction l with
  | nil => rfl
  | cons a t ih =>
    simp only [List.map_cons, List.filter_cons, h a]
    cases hpa : pred a <;> simp [ih]

theorem find?_map_comm {α : Type} (u : α → α) (pred : α → Bool)
    (h : ∀ x, pred (u x) = pred x) :
    ∀ l : List α, (l.map u).find? pred = (l.find? pred).map u := by
  intro l
  induction l with
  | nil => rfl
  | cons a t ih =>
    simp only [List.map_cons]
    cases hpa : pred a
    · rw [List.find?_cons_of_neg _ (by rw [h a, hpa]; exact Bool.false_ne_true),
          List.find?_cons_of_neg _ (by rw [hpa]; exact Bool.false_ne_true), ih]
    · rw [List.find?_cons_of_pos _ (by rw [h a, hpa]),
          List.find?_cons_of_pos _ hpa]
      rfl

theorem getProposal_insertSignature (db : DbState) (row : SigRow) (pid : Nat) :
    getProposal (insertSignature db row) pid = getProposal db pid := rfl

theorem count_signatures_insert (db : DbState) (row : SigRow) (pid : Nat)
    (hrow : row.proposal_id = pid) :
    count_signatures (insertSignature db row) pid = count_signatures db pid + 1 := by
  unfold count_signatures sigRowsOf insertSignature
  rw [List.filter_append, List.length_append]
  simp [hrow]

theorem transition_status_signatures (db : DbState) (id : Nat)
    (f t : ProposalStatus) :
    (transition_status db id f t).2.signatures = db.signatures := by
  unfold transition_status
  split
  · rfl
  · split <;> rfl

theorem count_signatures_eq_of_sig_eq (db db' : DbState) (pid : Nat)
    (h : db.signatures = db'.signatures) :
    count_signatures db pid = count_signatures db' pid := by
  unfold count_signatures sigRowsOf
  rw [h]

/-- Effect of a successful compare-and-set transition: the matching rows
get the new status, and the looked-up row of `id` is the old one with its
status replaced. -/
theorem transition_status_eff (db : DbState) (id : Nat) (f t : ProposalStatus)
    (hcan : f.can_transition_to t = true)
    (p : ProposalRow) (hp : getProposal db id = some p) (hst : p.status = f) :
    (transition_status db id f t).1 = Except.ok ()
    ∧ getProposal (transition_status db id f t).2 id
        = some { p with status := t }
    ∧ (transition_status db id f t).2.signatures = db.signatures := by
  have hp' : db.proposals.find? (fun q => q.id == id) = some p := hp
  have hid := List.find?_some hp'
  have hid' : p.id = id := by simpa using hid
  have hpred : (p.id == id && p.status == f) = true := by simp [hid', hst]
  have hmem : p ∈ db.proposals := List.mem_of_find?_eq_some hp'
  have hany : db.proposals.any (fun q => q.id == id && q.status == f) = true :=
    List.any_eq_true.mpr ⟨p, hmem, hpred⟩
  have hu : ∀ x : ProposalRow,
      ((fun q : ProposalRow => q.id == id)
        (if x.id == id && x.status == f then { x with status := t } else x))
      = ((fun q : ProposalRow => q.id == id) x) := by
    intro x
    by_cases hx : (x.id == id && x.status == f) = true
    · rw [if_pos hx]
    · rw [if_neg hx]
  unfold transition_status
  rw [if_neg (not_not_intro hcan), if_pos hany]
  refine ⟨rfl, ?_, rfl⟩
  show ((db.proposals.map fun q =>
      if q.id == id && q.status == f then { q with status := t } else q).find?
        (fun q => q.id == id)) = some { p with status := t }
  rw [find?_map_comm _ _ hu db.proposals, hp']
  show some (if p.id == id && p.status == f then { p with status := t } else p)
      = some { p with status := t }
  rw [if_pos hpred]

theorem filter_map_id {α : Type} (u : α → α) (pred : α → Bool)
    (h1 : ∀ x, pred (u x) = pred x) (h2 : ∀ x, pred x = true → u x = x) :
    ∀ l : List α, (l.map u).filter pred = l.filter pred := by
  intro l
  induction l with
  | nil => rfl
  | cons a t ih =>
    simp only [List.map_cons, List.filter_cons, h1 a]
    cases hpa : pred a
    · simp [ih]
    · simp [ih, h2 a hpa]

theorem sigRowsOf_invalidate_other (db : DbState) (q pid : Nat) (kh : String)
    (h : q ≠ pid) :
    sigRowsOf (invalidate_signature db q kh) pid = sigRowsOf db pid := by
  unfold sigRowsOf invalidate_signature
  apply filter_map_id
  · intro x
    by_cases hx : (x.proposal_id == q && x.signer_key_hash == kh) = true
    · rw [if_pos hx]
    · rw [if_neg hx]
  · intro x hx
    have hxp : x.proposal_id = pid := by simpa using hx
    have hny : ¬ ((x.proposal_id == q && x.signer_key_hash == kh) = true) := by
      simp [hxp, Ne.symm h]
    rw [if_neg hny]

theorem propRowsOf_mark_expired_other (db : DbState) (q pid : Nat)
    (h : q ≠ pid) :
    propRowsOf (mark_expired db q) pid = propRowsOf db pid := by
  unfold propRowsOf mark_expired
  apply filter_map_id
  · intro x
    by_cases hx : (x.id == q && x.status.isActive) = true
    · rw [if_pos hx]
    · rw [if_neg hx]
  · intro x hx
    have hxp : x.id = pid := by simpa using hx
    have hny : ¬ ((x.id == q && x.status.isActive) = true) := by
      simp [hxp, Ne.symm h]
    rw [if_neg hny]

theorem propRowsOf_mark_invalid_other (db : DbState) (q pid : Nat)
    (reason : String) (h : q ≠ pid) :
    propRowsOf (mark_invalid db q reason) pid = propRowsOf db pid := by
  unfold propRowsOf mark_invalid
  apply filter_map_id
  · intro x
    by_cases hx : (x.id == q && x.status.isActive) = true
    · rw [if_pos hx]
    · rw [if_neg hx]
  · intro x hx
    have hxp : x.id = pid := by simpa using hx
    have hny : ¬ ((x.id == q && x.status.isActive) = true) := by
      simp [hxp, Ne.symm h]
    rw [if_neg hny]

theorem propRowsOf_mark_invalid_own (db : DbState) (pid : Nat)
    (reason : String) (p : ProposalRow) (hrow : propRowsOf db pid = [p])
    (hact : p.status.isActive = true) :
    propRowsOf (mark_invalid db pid reason) pid
      = [{ p with status := .Invalid, invalid_reason := some reason }] := by
  have hpmem : p ∈ db.proposals.filter (fun q => q.id == pid) := by
    unfold propRowsOf at hrow
    rw [hrow]
    exact List.mem_singleton.mpr rfl
  have hppred : (p.id == pid) = true := (List.mem_filter.mp hpmem).2
  unfold propRowsOf mark_invalid
  rw [filter_map_comm _ _ (fun x => ?_) db.proposals]
  · show (propRowsOf db pid).map _ = _
    rw [hrow]
    show [if p.id == pid && p.status.isActive then
        { p with status := .Invalid, invalid_reason := some reason } else p]
      = _
    rw [if_pos (by simp [hppred, hact])]
  · by_cases hx : (x.id == pid && x.status.isActive) = true
    · rw [if_pos hx]
    · rw [if_neg hx]

theorem invalidateMany_nil (pid : Nat) (r : SigRow) :
    invalidateMany pid [] r = r := by
  unfold invalidateMany
  simp

theorem selectedOf_nil (live : List String) : selectedOf live [] = [] := rfl

theorem selectedOf_cons_pos (live : List String) (kv : String × Bool)
    (rest : List (String × Bool)) (h : (kv.2 && !(live.contains kv.1)) = true) :
    selectedOf live (kv :: rest) = kv.1 :: selectedOf live rest := by
  unfold selectedOf
  rw [List.filter_cons, if_pos h]
  rfl

theorem selectedOf_cons_neg (live : List String) (kv : String × Bool)
    (rest : List (String × Bool))
    (h : ¬ ((kv.2 && !(live.contains kv.1)) = true)) :
    selectedOf live (kv :: rest) = selectedOf live rest := by
  unfold selectedOf
  rw [List.filter_cons, if_neg h]

/-- Composing a single-signer invalidation with a set invalidation gives
the set invalidation for the enlarged set. -/
theorem invalidateMany_step (pid : Nat) (kh : String) (khs : List String)
    (r : SigRow) :
    invalidateMany pid khs
      (if r.proposal_id == pid && r.signer_key_hash == kh then
        { r with is_valid := false } else r)
      = invalidateMany pid (kh :: khs) r := by
  unfold invalidateMany
  by_cases hpid : r.proposal_id = pid
  · by_cases hkh : r.signer_key_hash = kh
    · by_cases hrest : r.signer_key_hash ∈ khs
      · simp [hpid, hkh, hrest]
      · simp [hpid, hkh, hrest]
    · by_cases hrest : r.signer_key_hash ∈ khs
      · simp [hpid, hkh, hrest]
      · simp [hpid, hkh, hrest]
  · simp [hpid]

/-- Characterization of the monitor's inner invalidation loop: it
returns the selected key hashes appended to the accumulator, leaves the
proposals untouched, and applies the set invalidation to the signature
table. -/
theorem invalidateFold_spec (pid : Nat) (live : List String) :
    ∀ (pairs : List (String × Bool)) (db : DbState) (acc : List String),
      (pairs.foldl (invalidateStep pid live) (db, acc)).2
          = acc ++ selectedOf live pairs
      ∧ (pairs.foldl (invalidateStep pid live) (db, acc)).1.proposals
          = db.proposals
      ∧ (pairs.foldl (invalidateStep pid live) (db, acc)).1.signatures
          = db.signatures.map (invalidateMany pid (selectedOf live pairs)) := by
  intro pairs
  induction pairs with
  | nil =>
    intro db acc
    refine ⟨by simp [selectedOf_nil], rfl, ?_⟩
    rw [selectedOf_nil]
    show db.signatures = db.signatures.map (invalidateMany pid [])
    rw [List.map_congr_left (fun r _ => invalidateMany_nil pid r), List.map_id']
  | cons kv rest ih =>
    intro db acc
    by_cases hsel : (kv.2 && !(live.contains kv.1)) = true
    · have hstep : invalidateStep pid live (db, acc) kv
          = (invalidate_signature db pid kv.1, acc ++ [kv.1]) := by
        unfold invalidateStep
        rw [if_pos hsel]
      rw [List.foldl_cons, hstep]
      obtain ⟨h2, h3, h4⟩ := ih (invalidate_signature db pid kv.1) (acc ++ [kv.1])
      refine ⟨?_, ?_, ?_⟩
      · rw [h2, selectedOf_cons_pos live kv rest hsel, List.append_assoc]
        rfl
      · rw [h3]
        rfl
      · rw [h4, selectedOf_cons_pos live kv rest hsel]
        show (db.signatures.map fun r =>
            if r.proposal_id == pid && r.signer_key_hash == kv.1 then
              { r with is_valid := false } else r).map
            (invalidateMany pid (selectedOf live rest))
          = db.signatures.map (invalidateMany pid (kv.1 :: selectedOf live rest))
        rw [List.map_map]
        apply List.map_congr_left
        intro r _
        exact invalidateMany_step pid kv.1 (selectedOf live rest) r
    · have hstep : invalidateStep pid live (db, acc) kv = (db, acc) := by
        unfold invalidateStep
        rw [if_neg hsel]
      rw [List.foldl_cons, hstep, selectedOf_cons_neg live kv rest hsel]
      exact ih db acc

theorem mem_selectedOf_iff (live : List String)
    (pairs : List (String × Bool)) (kh : String) :
    kh ∈ selectedOf live pairs
      ↔ ∃ kv ∈ pairs, kv.1 = kh ∧ kv.2 = true ∧ live.contains kh = false := by
  unfold selectedOf
  simp only [List.mem_map, List.mem_filter, Bool.and_eq_true, Bool.not_eq_true']
  constructor
  · rintro ⟨kv, ⟨hmem, hv, hl⟩, hkh⟩
    exact ⟨kv, hmem, hkh, hv, hkh ▸ hl⟩
  · rintro ⟨kv, hmem, hkh, hv, hl⟩
    exact ⟨kv, ⟨hmem, hv, hkh ▸ hl⟩, hkh⟩

theorem removedOf_not_live (db : DbState) (live : List String) (pid : Nat)
    (kh : String) (h : kh ∈ removedOf db live pid) :
    live.contains kh = false := by
  obtain ⟨kv, -, -, -, hl⟩ := (mem_selectedOf_iff live _ kh).mp h
  exact hl

theorem mem_removedOf_of_valid (db : DbState) (live : List String) (pid : Nat)
    (r : SigRow) (hr : r ∈ sigRowsOf db pid) (hv : r.is_valid = true)
    (hl : live.contains r.signer_key_hash = false) :
    r.signer_key_hash ∈ removedOf db live pid := by
  apply (mem_selectedOf_iff live _ r.signer_key_hash).mpr
  refine ⟨(r.signer_key_hash, r.is_valid), ?_, rfl, hv, hl⟩
  unfold get_signature_key_hashes
  exact List.mem_map.mpr ⟨r, hr, rfl⟩

theorem invalidateMany_removed_pointwise (db : DbState) (live : List String)
    (pid : Nat) (r : SigRow) (hr : r ∈ db.signatures) :
    ((invalidateMany pid (removedOf db live pid) r).proposal_id == pid
      && (invalidateMany pid (removedOf db live pid) r).is_valid)
    = ((r.is_valid && live.contains r.signer_key_hash)
        && (r.proposal_id == pid)) := by
  by_cases hpid : r.proposal_id = pid
  · have hrmem : r ∈ sigRowsOf db pid :=
      List.mem_filter.mpr ⟨hr, by simp [hpid]⟩
    by_cases hval : r.is_valid = true
    · by_cases hlive : live.contains r.signer_key_hash = true
      · have hnot : r.signer_key_hash ∉ removedOf db live pid := by
          intro hmem
          rw [removedOf_not_live db live pid _ hmem] at hlive
          cases hlive
        unfold invalidateMany
        rw [if_neg (by simp [hpid, hnot])]
        simp [hpid, hval, List.elem_iff.mp hlive]
      · have hlive' : live.contains r.signer_key_hash = false := by
          simpa using hlive
        have hmem := mem_removedOf_of_valid db live pid r hrmem hval hlive'
        have hnmem : r.signer_key_hash ∉ live := fun hm => hlive (List.elem_iff.mpr hm)
        unfold invalidateMany
        rw [if_pos (by simp [hpid, hmem])]
        simp [hnmem]
    · have hval' : r.is_valid = false := by simpa using hval
      unfold invalidateMany
      by_cases hc : (r.proposal_id == pid
          && (removedOf db live pid).contains r.signer_key_hash) = true
      · rw [if_pos hc]
        simp [hval']
      · rw [if_neg hc]
        simp [hval']
  · have hb : (r.proposal_id == pid) = false := by simp [hpid]
    unfold invalidateMany
    rw [if_neg (by simp [hpid])]
    simp [hb]

theorem count_valid_after_invalidate (db : DbState) (live : List String)
    (pid : Nat) :
    count_valid_signatures
        { db with signatures :=
            db.signatures.map (invalidateMany pid (removedOf db live pid)) } pid
      = liveValidCount db live pid := by
  unfold count_valid_signatures liveValidCount sigRowsOf
  rw [← List.countP_eq_length_filter, ← List.countP_eq_length_filter,
      List.countP_map, List.countP_filter]
  exact List.countP_congr (fun r hr => by
    rw [show ((fun r : SigRow => r.proposal_id == pid && r.is_valid) ∘
          invalidateMany pid (removedOf db live pid)) r
        = ((invalidateMany pid (removedOf db live pid) r).proposal_id == pid
            && (invalidateMany pid (removedOf db live pid) r).is_valid) from rfl,
        invalidateMany_removed_pointwise db live pid r hr])

theorem invalidateMany_proposal_id (pid : Nat) (khs : List String)
    (r : SigRow) :
    (invalidateMany pid khs r).proposal_id = r.proposal_id := by
  unfold invalidateMany
  split
  · rfl
  · rfl

theorem sigRowsOf_congr (X Y : DbState) (pid : Nat)
    (h : X.signatures = Y.signatures) :
    sigRowsOf X pid = sigRowsOf Y pid := by
  unfold sigRowsOf
  rw [h]

theorem propRowsOf_congr (X Y : DbState) (pid : Nat)
    (h : X.proposals = Y.proposals) :
    propRowsOf X pid = propRowsOf Y pid := by
  unfold propRowsOf
  rw [h]

theorem count_valid_signatures_congr (X Y : DbState) (pid : Nat)
    (h : X.signatures = Y.signatures) :
    count_valid_signatures X pid = count_valid_signatures Y pid := by
  unfold count_valid_signatures
  rw [h]

theorem removedOf_congr (X Y : DbState) (live : List String) (pid : Nat)
    (h : sigRowsOf X pid = sigRowsOf Y pid) :
    removedOf X live pid = removedOf Y live pid := by
  unfold removedOf get_signature_key_hashes
  rw [h]

theorem liveValidCount_congr (X Y : DbState) (live : List String) (pid : Nat)
    (h : sigRowsOf X pid = sigRowsOf Y pid) :
    liveValidCount X live pid = liveValidCount Y live pid := by
  unfold liveValidCount
  rw [h]

/-- The status guard of the monitor's Phase B implies the `mark` guard. -/
theorem isActive_of_signing_or_ready (st : ProposalStatus)
    (h : st = .Signing ∨ st = .Ready) : st.isActive = true := by
  rcases h with h | h <;> rw [h] <;> rfl

/-- Effect of Phase B on the processed proposal itself: its signatures
undergo the set invalidation of the removed signers, and when some
signer was removed and the surviving valid count is below the threshold
its row is marked `Invalid` with the monitor's reason. -/
theorem phase2ProcessOne_own (live : List String) (thr : Nat) (db : DbState)
    (p : ProposalRow) (hact : p.status = .Signing ∨ p.status = .Ready)
    (hrow : propRowsOf db p.id = [p]) :
    sigRowsOf (phase2ProcessOne live thr db p) p.id
      = (sigRowsOf db p.id).map (invalidateMany p.id (removedOf db live p.id))
    ∧ (removedOf db live p.id ≠ [] →
       liveValidCount db live p.id < thr →
       propRowsOf (phase2ProcessOne live thr db p) p.id
         = [{ p with status := .Invalid, invalid_reason := some (mkInvalidReason (removedOf db live p.id)) }]) := by
  unfold phase2ProcessOne
  rw [if_neg (not_not_intro hact)]
  obtain ⟨h2, h3, h4⟩ := invalidateFold_spec p.id live
    (get_signature_key_hashes db p.id) db []
  have h2' : ((get_signature_key_hashes db p.id).foldl
      (invalidateStep p.id live) (db, [])).2 = removedOf db live p.id := by
    rw [h2]
    rfl
  have hsig : sigRowsOf ((get_signature_key_hashes db p.id).foldl
      (invalidateStep p.id live) (db, [])).1 p.id
      = (sigRowsOf db p.id).map (invalidateMany p.id (removedOf db live p.id)) := by
    unfold sigRowsOf
    rw [h4]
    exact filter_map_comm _ _
      (fun x => by rw [show ((invalidateMany p.id (selectedOf live
          (get_signature_key_hashes db p.id)) x).proposal_id == p.id)
          = (x.proposal_id == p.id) by rw [invalidateMany_proposal_id]])
      db.signatures
  have hprop : propRowsOf ((get_signature_key_hashes db p.id).foldl
      (invalidateStep p.id live) (db, [])).1 p.id = [p] := by
    rw [propRowsOf_congr _ db p.id h3]
    exact hrow
  have hcv : count_valid_signatures ((get_signature_key_hashes db p.id).foldl
      (invalidateStep p.id live) (db, [])).1 p.id
      = liveValidCount db live p.id := by
    rw [count_valid_signatures_congr _ { db with signatures := db.signatures.map (invalidateMany p.id (removedOf db live p.id)) } p.id (by rw [h4]; rfl)]
    exact count_valid_after_invalidate db live p.id
  by_cases hemp : ((get_signature_key_hashes db p.id).foldl
      (invalidateStep p.id live) (db, [])).2.isEmpty = true
  · rw [if_pos hemp]
    refine ⟨hsig, fun hne _ => ?_⟩
    rw [h2'] at hemp
    exact absurd (List.isEmpty_iff.mp hemp) hne
  · rw [if_neg hemp]
    by_cases hcnt : count_valid_signatures ((get_signature_key_hashes db p.id).foldl
        (invalidateStep p.id live) (db, [])).1 p.id < thr
    · rw [if_pos hcnt]
      refine ⟨hsig, fun _ _ => ?_⟩
      rw [h2']
      exact propRowsOf_mark_invalid_own _ p.id _ p hprop
        (isActive_of_signing_or_ready p.status hact)
    · rw [if_neg hcnt]
      refine ⟨hsig, fun hne hlt => ?_⟩
      rw [hcv] at hcnt
      exact absurd hlt hcnt

/-- Phase B leaves every other proposal's rows and signatures alone. -/
theorem phase2ProcessOne_frame (live : List String) (thr : Nat)
    (db : DbState) (q : ProposalRow) (pid : Nat) (h : q.id ≠ pid) :
    sigRowsOf (phase2ProcessOne live thr db q) pid = sigRowsOf db pid
    ∧ propRowsOf (phase2ProcessOne live thr db q) pid = propRowsOf db pid := by
  unfold phase2ProcessOne
  by_cases hguard : ¬ (q.status = .Signing ∨ q.status = .Ready)
  · rw [if_pos hguard]
    exact ⟨rfl, rfl⟩
  · rw [if_neg hguard]
    obtain ⟨h2, h3, h4⟩ := invalidateFold_spec q.id live
      (get_signature_key_hashes db q.id) db []
    have hsig : sigRowsOf ((get_signature_key_hashes db q.id).foldl
        (invalidateStep q.id live) (db, [])).1 pid = sigRowsOf db pid := by
      unfold sigRowsOf
      rw [h4]
      apply filter_map_id
      · intro x
        rw [show ((invalidateMany q.id (selectedOf live
            (get_signature_key_hashes db q.id)) x).proposal_id == pid)
            = (x.proposal_id == pid) by rw [invalidateMany_proposal_id]]
      · intro x hx
        have hxp : x.proposal_id = pid := by simpa using hx
        unfold invalidateMany
        rw [if_neg (by simp [hxp, Ne.symm h])]
    have hprop : propRowsOf ((get_signature_key_hashes db q.id).foldl
        (invalidateStep q.id live) (db, [])).1 pid = propRowsOf db pid :=
      propRowsOf_congr _ db pid h3
    by_cases hemp : ((get_signature_key_hashes db q.id).foldl
        (invalidateStep q.id live) (db, [])).2.isEmpty = true
    · rw [if_pos hemp]
      exact ⟨hsig, hprop⟩
    · rw [if_neg hemp]
      by_cases hcnt : count_valid_signatures ((get_signature_key_hashes db q.id).foldl
          (invalidateStep q.id live) (db, [])).1 q.id < thr
      · rw [if_pos hcnt]
        refine ⟨hsig, ?_⟩
        rw [propRowsOf_mark_invalid_other _ q.id pid _ h]
        exact hprop
      · rw [if_neg hcnt]
        exact ⟨hsig, hprop⟩

theorem phase2Fold_frame (live : List String) (thr : Nat) (pid : Nat) :
    ∀ (ps : List ProposalRow) (db : DbState), (∀ q ∈ ps, q.id ≠ pid) →
      sigRowsOf (ps.foldl (phase2ProcessOne live thr) db) pid = sigRowsOf db pid
      ∧ propRowsOf (ps.foldl (phase2ProcessOne live thr) db) pid
          = propRowsOf db pid := by
  intro ps
  induction ps with
  | nil => exact fun db _ => ⟨rfl, rfl⟩
  | cons q rest ih =>
    intro db hq
    rw [List.foldl_cons]
    obtain ⟨f1, f2⟩ := phase2ProcessOne_frame live thr db q pid
      (hq q (List.mem_cons_self q rest))
    obtain ⟨g1, g2⟩ := ih (phase2ProcessOne live thr db q)
      (fun x hx => hq x (List.mem_cons_of_mem q hx))
    exact ⟨g1.trans f1, g2.trans f2⟩

theorem phase2Fold_spec (live : List String) (thr : Nat) (p : ProposalRow)
    (hact : p.status = .Signing ∨ p.status = .Ready) :
    ∀ (ps : List ProposalRow) (db : DbState),
      p ∈ ps → (ps.map (fun q => q.id)).Nodup →
      propRowsOf db p.id = [p] →
      sigRowsOf (ps.foldl (phase2ProcessOne live thr) db) p.id
        = (sigRowsOf db p.id).map (invalidateMany p.id (removedOf db live p.id))
      ∧ (removedOf db live p.id ≠ [] →
         liveValidCount db live p.id < thr →
         propRowsOf (ps.foldl (phase2ProcessOne live thr) db) p.id
           = [{ p with status := .Invalid, invalid_reason := some (mkInvalidReason (removedOf db live p.id)) }]) := by
  intro ps
  induction ps with
  | nil =>
    intro db hp
    exact absurd hp (List.not_mem_nil p)
  | cons q rest ih =>
    intro db hp hnd hrow
    rw [List.map_cons] at hnd
    rw [List.foldl_cons]
    by_cases hqp : q.id = p.id
    · have hrestid : ∀ x ∈ rest, x.id ≠ p.id := by
        intro x hx hxe
        exact (List.nodup_cons.mp hnd).1
          (by rw [hqp, ← hxe]; exact List.mem_map.mpr ⟨x, hx, rfl⟩)
      have hpq : p = q := by
        rcases List.mem_cons.mp hp with h | h
        · exact h
        · exact absurd rfl (hrestid p h)
      obtain rfl := hpq
      obtain ⟨o1, o2⟩ := phase2ProcessOne_own live thr db p hact hrow
      obtain ⟨f1, f2⟩ := phase2Fold_frame live thr p.id rest
        (phase2ProcessOne live thr db p) hrestid
      constructor
      · rw [f1, o1]
      · intro hne hlt
        rw [f2, o2 hne hlt]
    · have hprest : p ∈ rest := by
        rcases List.mem_cons.mp hp with h | h
        · exact absurd (congrArg (fun r => r.id) h).symm hqp
        · exact h
      obtain ⟨f1, f2⟩ := phase2ProcessOne_frame live thr db q p.id hqp
      have hrow' : propRowsOf (phase2ProcessOne live thr db q) p.id = [p] :=
        f2.trans hrow
      have hnd' : (rest.map (fun q => q.id)).Nodup := (List.nodup_cons.mp hnd).2
      obtain ⟨g1, g2⟩ := ih (phase2ProcessOne live thr db q) hprest hnd' hrow'
      have hrem : removedOf (phase2ProcessOne live thr db q) live p.id
          = removedOf db live p.id := removedOf_congr _ _ live p.id f1
      have hlvc : liveValidCount (phase2ProcessOne live thr db q) live p.id
          = liveValidCount db live p.id := liveValidCount_congr _ _ live p.id f1
      constructor
      · rw [g1, f1, hrem]
      · intro hne hlt
        rw [g2 (by rw [hrem]; exact hne) (by rw [hlvc]; exact hlt), hrem]

theorem expireFold_spec (e : Nat) :
    ∀ (ps : List ProposalRow) (db : DbState) (acc : List ProposalRow),
      (ps.foldl (expireStep e) (db, acc)).2
        = acc ++ ps.filter (fun p => !(decide (p.epoch_max ≤ e)))
      ∧ (ps.foldl (expireStep e) (db, acc)).1.signatures = db.signatures
      ∧ ∀ pid, (∀ q ∈ ps, q.epoch_max ≤ e → q.id ≠ pid) →
          propRowsOf (ps.foldl (expireStep e) (db, acc)).1 pid
            = propRowsOf db pid := by
  intro ps
  induction ps with
  | nil =>
    intro db acc
    exact ⟨by simp, rfl, fun pid _ => rfl⟩
  | cons q rest ih =>
    intro db acc
    by_cases hq : q.epoch_max ≤ e
    · have hstep : expireStep e (db, acc) q = (mark_expired db q.id, acc) := by
        unfold expireStep
        rw [if_pos hq]
      rw [List.foldl_cons, hstep]
      obtain ⟨i1, i2, i3⟩ := ih (mark_expired db q.id) acc
      refine ⟨?_, ?_, ?_⟩
      · rw [i1, List.filter_cons, if_neg (by simp [hq])]
      · rw [i2]
        rfl
      · intro pid hpid
        rw [i3 pid (fun x hx h1 => hpid x (List.mem_cons_of_mem q hx) h1)]
        exact propRowsOf_mark_expired_other db q.id pid
          (hpid q (List.mem_cons_self q rest) hq)
    · have hstep : expireStep e (db, acc) q = (db, acc ++ [q]) := by
        unfold expireStep
        rw [if_neg hq]
      rw [List.foldl_cons, hstep]
      obtain ⟨i1, i2, i3⟩ := ih db (acc ++ [q])
      refine ⟨?_, i2,
        fun pid hpid => i3 pid (fun x hx h1 => hpid x (List.mem_cons_of_mem q hx) h1)⟩
      rw [i1, List.filter_cons, if_pos (by simp [hq])]
      simp [List.append_assoc]

theorem propRowsOf_single (l : List ProposalRow)
    (hn : (l.map (fun q => q.id)).Nodup) (p : ProposalRow) (hp : p ∈ l) :
    l.filter (fun q => q.id == p.id) = [p] := by
  induction l with
  | nil => exact absurd hp (List.not_mem_nil p)
  | cons a t ih =>
    rw [List.map_cons] at hn
    rcases List.mem_cons.mp hp with h | h
    · obtain rfl := h
      rw [List.filter_cons, if_pos (by simp)]
      have htnil : t.filter (fun q => q.id == p.id) = [] := by
        apply List.filter_eq_nil_iff.mpr
        intro x hx
        intro hxb
        have hxe : x.id = p.id := by simpa using hxb
        exact (List.nodup_cons.mp hn).1
          (by rw [← hxe]; exact List.mem_map.mpr ⟨x, hx, rfl⟩)
      rw [htnil]
    · have haid : a.id ≠ p.id := by
        intro he
        exact (List.nodup_cons.mp hn).1
          (by rw [he]; exact List.mem_map.mpr ⟨p, h, rfl⟩)
      rw [List.filter_cons, if_neg (by simp [haid])]
      exact ih (List.nodup_cons.mp hn).2 h

/-! ## Claims -/

/-- C1.  For every composed main transaction, `compose_main_transaction`
produces a notarized transaction whose transaction header uses the fee
payer's public key as notary with `notary_is_signatory = true` and
`tip_basis_points = 0`, whose children are exactly one signed partial
keyed `"withdrawal"`, and whose outer manifest is exactly
`lock_fee(fee_payer_account, 10 XRD)` followed by
`yield_to_child("withdrawal", ())`.  (Settled against the spec-modelled
canonical composer; see `compose_main_transaction`.) -/
theorem compose_main_transaction_shape (network_id current_epoch : Nat)
    (fee_payer_private_key fee_payer_account : String)
    (withdrawal_signed : SignedChild) (discriminator : Nat) :
    (compose_main_transaction network_id current_epoch fee_payer_private_key
        fee_payer_account withdrawal_signed discriminator).transaction_header
      = { notary_public_key := notaryPublicKeyOf fee_payer_private_key,
          notary_is_signatory := true, tip_basis_points := 0 }
    ∧ (compose_main_transaction network_id current_epoch fee_payer_private_key
        fee_payer_account withdrawal_signed discriminator).children
      = [("withdrawal", withdrawal_signed)]
    ∧ (compose_main_transaction network_id current_epoch fee_payer_private_key
        fee_payer_account withdrawal_signed discriminator).instructions
      = [.lockFee fee_payer_account 10, .yieldToChild ("withdrawal")] :=
  ⟨rfl, rfl, rfl⟩

/-- C2.  Every discriminator the canonical subintent builder places in
the intent header and returns in its result satisfies `0 ≤ d < 2^53`.
(Settled against the spec-modelled canonical builder; see
`build_unsigned_subintent_from_compiled`.) -/
theorem builder_discriminator_lt_2_pow_53 (manifest : SubintentManifestV2)
    (epoch_min epoch_max rng_draw now : Nat) :
    (build_unsigned_subintent_from_compiled manifest epoch_min epoch_max
        rng_draw now).intent_discriminator < 2 ^ 53
    ∧ ∃ h rest,
        decodeHeader (build_unsigned_subintent_from_compiled manifest epoch_min
          epoch_max rng_draw now).partial_transaction_bytes = some (h, rest)
        ∧ h.intent_discriminator
          = (build_unsigned_subintent_from_compiled manifest epoch_min epoch_max
              rng_draw now).intent_discriminator := by
  refine ⟨Nat.mod_lt _ (by norm_num), ?_⟩
  exact ⟨_, _, decodeHeader_encode _ _, rfl⟩

/-- C3.  A successful canonical build at wall-clock time `now` sets
`min_proposer_timestamp = now` and `max_proposer_timestamp = now + 86400`
and embeds both timestamps in the serialized intent header, so that
re-deriving the partial from the decoded header and the same manifest
reproduces exactly the same bytes and hash.  (Settled against the
spec-modelled canonical builder.) -/
theorem builder_timestamps_embedded (manifest : SubintentManifestV2)
    (epoch_min epoch_max rng_draw now : Nat) :
    (build_unsigned_subintent_from_compiled manifest epoch_min epoch_max
        rng_draw now).min_proposer_timestamp = now
    ∧ (build_unsigned_subintent_from_compiled manifest epoch_min epoch_max
        rng_draw now).max_proposer_timestamp = now + 86400
    ∧ ∃ h,
        decodeHeader (build_unsigned_subintent_from_compiled manifest epoch_min
            epoch_max rng_draw now).partial_transaction_bytes
          = some (h, encodeString manifest.text)
        ∧ h.min_proposer_timestamp_inclusive = some now
        ∧ h.max_proposer_timestamp_exclusive = some (now + 86400)
        ∧ serializePartialTransaction { intent_header := h, manifest := manifest }
          = (build_unsigned_subintent_from_compiled manifest epoch_min epoch_max
              rng_draw now).partial_transaction_bytes
        ∧ subintentHashOf manifest.network { intent_header := h, manifest := manifest }
          = (build_unsigned_subintent_from_compiled manifest epoch_min epoch_max
              rng_draw now).subintent_hash := by
  refine ⟨rfl, rfl, _, decodeHeader_encode _ _, rfl, rfl, rfl, rfl⟩

/-- C9.  Two runs of the subintent builder on identical inputs produce
identical serialized partial-transaction bytes and an identical bech32m
sub-intent hash (the embedded builder is a pure function of its inputs;
the codec's determinism contract is modelled by pure serialization and
hashing functions). -/
theorem builder_deterministic (m1 m2 : String) (n1 n2 e1 e2 E1 E2 d1 d2 : Nat)
    (hm : m1 = m2) (hn : n1 = n2) (he : e1 = e2) (hE : E1 = E2) (hd : d1 = d2) :
    build_unsigned_subintent_with_discriminator m1 n1 e1 E1 d1
      = build_unsigned_subintent_with_discriminator m2 n2 e2 E2 d2
    ∧ ∀ r1 r2,
        build_unsigned_subintent_with_discriminator m1 n1 e1 E1 d1 = .ok r1 →
        build_unsigned_subintent_with_discriminator m2 n2 e2 E2 d2 = .ok r2 →
        r1.partial_transaction_bytes = r2.partial_transaction_bytes
        ∧ r1.subintent_hash = r2.subintent_hash := by
  subst hm hn he hE hd
  refine ⟨rfl, fun r1 r2 h1 h2 => ?_⟩
  rw [h1] at h2
  cases h2
  exact ⟨rfl, rfl⟩

/-- Witness for C9 at concrete inputs. -/
theorem builder_deterministic_witness :
    build_unsigned_subintent_with_discriminator ("CALL_METHOD") 2 1000 1100 42
      = build_unsigned_subintent_with_discriminator ("CALL_METHOD") 2 1000 1100 42
    ∧ ∀ r1 r2,
        build_unsigned_subintent_with_discriminator ("CALL_METHOD") 2 1000 1100 42 = .ok r1 →
        build_unsigned_subintent_with_discriminator ("CALL_METHOD") 2 1000 1100 42 = .ok r2 →
        r1.partial_transaction_bytes = r2.partial_transaction_bytes
        ∧ r1.subintent_hash = r2.subintent_hash :=
  builder_deterministic ("CALL_METHOD") ("CALL_METHOD") 2 2 1000 1000 1100 1100 42 42
    rfl rfl rfl rfl rfl

theorem collectResults_ok_length {α β : Type} (f : α → Except String β) :
    ∀ (l : List α) (res : List β), collectResults f l = .ok res →
      res.length = l.length := by
  intro l
  induction l with
  | nil =>
    intro res h
    simp only [collectResults] at h
    cases h
    rfl
  | cons a t ih =>
    intro res h
    simp only [collectResults] at h
    cases hfa : f a with
    | error e => rw [hfa] at h; cases h
    | ok b =>
      rw [hfa] at h
      cases hct : collectResults f t with
      | error e => rw [hct] at h; cases h
      | ok bs =>
        rw [hct] at h
        cases h
        simp [ih bs hct]

theorem isPrefixOf_append {n h t : List Char} (hp : n.isPrefixOf h = true) :
    n.isPrefixOf (h ++ t) = true := by
  induction n generalizing h with
  | nil =>
    cases hl : h ++ t with
    | nil => rfl
    | cons a l => rfl
  | cons c n' ih =>
    cases h with
    | nil => exact absurd hp (by simp [List.isPrefixOf])
    | cons d h' =>
      simp only [List.isPrefixOf, List.cons_append, Bool.and_eq_true] at hp ⊢
      exact ⟨hp.1, ih hp.2⟩

theorem containsSub_append_left (n h1 h2 : List Char)
    (hc : containsSub n h1 = true) : containsSub n (h1 ++ h2) = true := by
  induction h1 with
  | nil =>
    simp only [containsSub] at hc
    have hn : n = [] := by
      cases n with
      | nil => rfl
      | cons c t => simp [List.isEmpty] at hc
    subst hn
    cases h2 with
    | nil => rfl
    | cons c t => simp [containsSub, List.isPrefixOf]
  | cons c t ih =>
    simp only [containsSub, Bool.or_eq_true] at hc
    rcases hc with hc | hc
    · simp only [List.cons_append, containsSub, Bool.or_eq_true]
      exact Or.inl (isPrefixOf_append hc)
    · simp only [List.cons_append, containsSub, Bool.or_eq_true]
      exact Or.inr (ih hc)

theorem mismatchMsg_contains (e g : String) :
    strContains (mismatchMsg e g) "different subintent hash" = true := by
  have hdata : ∀ x y : String, (x ++ y).data = x.data ++ y.data := fun x y => rfl
  unfold mismatchMsg strContains
  rw [hdata, hdata, hdata, hdata]
  simp only [List.append_assoc]
  exact containsSub_append_left _ _ _ (by decide)

theorem sigRowsOf_setFlags (f : SigRow → Bool) (db : DbState) (pid : Nat) :
    sigRowsOf (setFlags f db) pid
      = (sigRowsOf db pid).map (fun r => { r with is_valid := f r }) := by
  unfold sigRowsOf setFlags
  exact filter_map_comm (fun r => { r with is_valid := f r })
    (fun r => r.proposal_id == pid) (fun x => rfl) db.signatures

theorem count_signatures_setFlags (f : SigRow → Bool) (db : DbState) (pid : Nat) :
    count_signatures (setFlags f db) pid = count_signatures db pid := by
  unfold count_signatures
  rw [sigRowsOf_setFlags, List.length_map]

theorem get_raw_signatures_setFlags (f : SigRow → Bool) (db : DbState) (pid : Nat) :
    get_raw_signatures (setFlags f db) pid = get_raw_signatures db pid := by
  unfold get_raw_signatures
  rw [sigRowsOf_setFlags, List.map_map]
  rfl

theorem transition_status_proposals_only (dbA dbB : DbState)
    (h : dbA.proposals = dbB.proposals) (id : Nat) (f t : ProposalStatus) :
    (transition_status dbA id f t).1 = (transition_status dbB id f t).1
    ∧ (transition_status dbA id f t).2.proposals
        = (transition_status dbB id f t).2.proposals := by
  unfold transition_status
  rw [h]
  split
  · exact ⟨rfl, h⟩
  · split
    · exact ⟨rfl, rfl⟩
    · exact ⟨rfl, h⟩

/-- C5.  `transition_status(id, from, to)` succeeds exactly when
`(from, to)` is one of the specification's edges and the stored status of
proposal `id` currently equals `from`; in every other case it returns an
error and the store is unchanged. -/
theorem transition_status_cas (db : DbState) (id : Nat) (f t : ProposalStatus) :
    (f.can_transition_to t = true ↔ (f, t) ∈ claimEdges)
    ∧ ((transition_status db id f t).1 = Except.ok () ↔
        ((f, t) ∈ claimEdges ∧ ∃ p ∈ db.proposals, p.id = id ∧ p.status = f))
    ∧ (∀ e, (transition_status db id f t).1 = Except.error e →
        (transition_status db id f t).2 = db) := by
  have hedge : f.can_transition_to t = true ↔ (f, t) ∈ claimEdges := by
    cases f <;> cases t <;> decide
  refine ⟨hedge, ?_, ?_⟩
  · rw [← hedge]
    unfold transition_status
    by_cases hcan : f.can_transition_to t = true
    · rw [if_neg (not_not_intro hcan)]
      by_cases hany : db.proposals.any (fun p => p.id == id && p.status == f) = true
      · rw [if_pos hany]
        simp only [List.any_eq_true, Bool.and_eq_true, beq_iff_eq] at hany
        constructor
        · intro _; exact ⟨hcan, by simpa using hany⟩
        · intro _; rfl
      · rw [if_neg hany]
        constructor
        · intro h; cases h
        · rintro ⟨-, p, hp, hid, hst⟩
          exact absurd (List.any_eq_true.mpr ⟨p, hp, by simp [hid, hst]⟩) hany
    · rw [if_pos hcan]
      constructor
      · intro h; cases h
      · rintro ⟨h, -⟩
        exact absurd h hcan
  · intro e
    unfold transition_status
    split
    · intro _; rfl
    · split
      · intro h; cases h
      · intro _; rfl

/-- Witness for C5 at a concrete store: a disallowed edge leaves the
store unchanged, and an allowed edge with matching stored status
succeeds. -/
theorem transition_status_cas_witness :
    (transition_status dbC5 1 .Created .Ready).2 = dbC5
    ∧ (transition_status dbC5 1 .Created .Signing).1 = Except.ok () :=
  ⟨(transition_status_cas dbC5 1 .Created .Ready).2.2
      ("Invalid status transition") rfl,
   (transition_status_cas dbC5 1 .Created .Signing).2.1.mpr
      ⟨by decide, by decide⟩⟩

/-- C6 counterexample.  Parsing `Protected/CountOf` with `count = 256`
yields `threshold = 0`, not `threshold = count`: the Rust `count as u8`
cast truncates modulo 256. -/
theorem parse_count_of_truncates :
    (parse_access_rule c6CountJson).toOption.map (fun r => r.threshold) = some 0
    ∧ ¬ ((parse_access_rule c6CountJson).toOption.map (fun r => r.threshold)
          = some 256) := by
  constructor
  · rfl
  · intro h
    rw [show (parse_access_rule c6CountJson).toOption.map (fun r => r.threshold)
          = some 0 from rfl] at h
    cases h

/-- C6 (amended).  For every owner-rule JSON input: `Protected/CountOf`
yields `threshold = count mod 256` (the `u8` cast), one signer per list
element, each signer's `key_hash` the bracket-stripped simple
representation; `Require` yields threshold 1 with one signer; `AllOf`
yields `threshold = list length mod 256`; `AnyOf` yields threshold 1;
`AllowAll` yields threshold 0 and no signers; `DenyAll` errors; and any
unrecognized outer or inner type tag errors. -/
theorem parse_access_rule_shapes :
    (∀ (count : Nat) (reqs : List Json) (signers : List SignerInfo),
        collectResults parse_non_fungible_requirement reqs = .ok signers →
        parse_access_rule (mkCountOfRule count reqs)
          = .ok { signers := signers, threshold := count % 256,
                  is_updatable := false }
        ∧ signers.length = reqs.length)
    ∧ (∀ (req : Json) (si : SignerInfo),
        parse_non_fungible_requirement req = .ok si →
        parse_access_rule (mkRequireRule req)
          = .ok { signers := [si], threshold := 1, is_updatable := false })
    ∧ (∀ (reqs : List Json) (signers : List SignerInfo),
        collectResults parse_non_fungible_requirement reqs = .ok signers →
        parse_access_rule (mkAllOfRule reqs)
          = .ok { signers := signers, threshold := signers.length % 256,
                  is_updatable := false }
        ∧ signers.length = reqs.length)
    ∧ (∀ (reqs : List Json) (signers : List SignerInfo),
        collectResults parse_non_fungible_requirement reqs = .ok signers →
        parse_access_rule (mkAnyOfRule reqs)
          = .ok { signers := signers, threshold := 1, is_updatable := false })
    ∧ (∀ j, (j.index "type").asStr = some ("AllowAll") →
        parse_access_rule j
          = .ok { signers := [], threshold := 0, is_updatable := false })
    ∧ (∀ j, (j.index "type").asStr = some ("DenyAll") →
        parse_access_rule j = .error ("Account has DenyAll access rule"))
    ∧ (∀ j s, (j.index "type").asStr = some s →
        s ≠ "Protected" → s ≠ "AllowAll" → s ≠ "DenyAll" →
        parse_access_rule j = .error ("Unsupported rule type: " ++ s))
    ∧ (∀ j s, (j.index "type").asStr = some ("Protected") →
        ((((j.index "access_rule").index "proof_rule").index "type").asStr
          = some s) →
        s ≠ "CountOf" → s ≠ "Require" → s ≠ "AllOf" → s ≠ "AnyOf" →
        parse_access_rule j = .error ("Unsupported proof_rule type: " ++ s))
    ∧ (∀ resource_address simple_rep,
        parse_non_fungible_requirement (mkNonFungibleReq resource_address simple_rep)
          = .ok { key_hash := stripBrackets simple_rep,
                  key_type := keyTypeOf resource_address,
                  badge_resource := resource_address,
                  badge_local_id := simple_rep }) := by
  refine ⟨?_, ?_, ?_, ?_, ?_, ?_, ?_, ?_, ?_⟩
  · intro count reqs signers h
    refine ⟨?_, collectResults_ok_length _ _ _ h⟩
    have hred : parse_access_rule (mkCountOfRule count reqs)
        = match collectResults parse_non_fungible_requirement reqs with
          | .error e => .error e
          | .ok signers =>
            .ok { signers := signers, threshold := count % 256,
                  is_updatable := false } := rfl
    rw [hred, h]
  · intro req si h
    have hred : parse_access_rule (mkRequireRule req)
        = match parse_non_fungible_requirement req with
          | .error e => .error e
          | .ok signer =>
            .ok { signers := [signer], threshold := 1, is_updatable := false } := rfl
    rw [hred, h]
  · intro reqs signers h
    refine ⟨?_, collectResults_ok_length _ _ _ h⟩
    have hred : parse_access_rule (mkAllOfRule reqs)
        = match collectResults parse_non_fungible_requirement reqs with
          | .error e => .error e
          | .ok signers =>
            .ok { signers := signers, threshold := signers.length % 256,
                  is_updatable := false } := rfl
    rw [hred, h]
  · intro reqs signers h
    have hred : parse_access_rule (mkAnyOfRule reqs)
        = match collectResults parse_non_fungible_requirement reqs with
          | .error e => .error e
          | .ok signers =>
            .ok { signers := signers, threshold := 1, is_updatable := false } := rfl
    rw [hred, h]
  · intro j h
    unfold parse_access_rule
    rw [h]
    rfl
  · intro j h
    unfold parse_access_rule
    rw [h]
    rfl
  · intro j s h h1 h2 h3
    unfold parse_access_rule
    rw [h]
    simp [h1, h2, h3]
  · intro j s houter hinner h1 h2 h3 h4
    unfold parse_access_rule
    rw [houter]
    simp [hinner, h1, h2, h3, h4]
  · intro resource_address simple_rep
    rfl

/-- C7.  For every `add_signature` call that passes the hash, key and
signer-membership checks: it rejects (leaving the store unchanged) when
the proposal's status is neither `Created` nor `Signing`; otherwise,
after inserting the signature row, the proposal ends `Ready` exactly when
the count of stored signatures (old count + 1) meets the live threshold,
and ends `Signing` otherwise (covering the `Created → Signing`
promotion on a first signature). -/
theorem add_signature_transitions (db : DbState) (pid : Nat)
    (w : WalletSubmission) (rule : AccessRuleInfo) (expected : String)
    (nid : Nat)
    (hnet : (nid == 0x01 || nid == 0x02 || nid == 0xf2) = true)
    (hhash : w.subintent_hash = expected)
    (hsig : w.has_signatures = true)
    (hed : w.first_is_ed25519 = true)
    (hlen : w.public_key_hex.length = 64)
    (hmem : (rule.signers.any fun s =>
        s.key_hash == ledgerKeyHash w.public_key_hex) = true)
    (p : ProposalRow) (hp : getProposal db pid = some p) :
    ((p.status ≠ .Created ∧ p.status ≠ .Signing) →
      add_signature db pid w rule expected nid
        = (.error ("Proposal is in a non-signable status; signatures can only be added in Created or Signing"),
           db))
    ∧ ((p.status = .Created ∨ p.status = .Signing) →
       ((sigRowsOf db pid).any fun r =>
           r.signer_key_hash == ledgerKeyHash w.public_key_hex) = false →
       (add_signature db pid w rule expected nid).1 = Except.ok ()
       ∧ count_signatures (add_signature db pid w rule expected nid).2 pid
           = count_signatures db pid + 1
       ∧ getProposal (add_signature db pid w rule expected nid).2 pid
           = some { p with status :=
               if rule.threshold ≤ count_signatures db pid + 1 then
                 ProposalStatus.Ready
               else ProposalStatus.Signing }) := by
  have e1 : compute_subintent_hash_from_signed_partial_hex w nid
      = .ok w.subintent_hash := by
    unfold compute_subintent_hash_from_signed_partial_hex
    rw [if_pos hnet]
  have e2 : extract_signature_from_hex w
      = .ok (w.signature_bytes, w.public_key_hex) := by
    unfold extract_signature_from_hex
    rw [if_neg (by simp [hsig]), if_neg (by simp [hed])]
  have e3 : compute_key_hash w.public_key_hex
      = .ok (ledgerKeyHash w.public_key_hex) := by
    unfold compute_key_hash
    rw [if_neg (by simp [hlen])]
  constructor
  · intro hbad
    simp [add_signature, e1, e2, e3, hp, hhash, hmem, hbad.1, hbad.2]
  · intro hcs hdup
    have hins : getProposal (insertSignature db
        { proposal_id := pid, signer_key_hash := ledgerKeyHash w.public_key_hex,
          signer_public_key := w.public_key_hex,
          signature_bytes := w.signature_bytes, is_valid := true }) pid
        = some p := hp
    have hcount : count_signatures (insertSignature db
        { proposal_id := pid, signer_key_hash := ledgerKeyHash w.public_key_hex,
          signer_public_key := w.public_key_hex,
          signature_bytes := w.signature_bytes, is_valid := true }) pid
        = count_signatures db pid + 1 :=
      count_signatures_insert _ _ _ rfl
    rcases hcs with hcs | hcs
    · have ht1 := transition_status_eff _ pid .Created .Signing (by decide) p hins hcs
      by_cases hth : rule.threshold ≤ count_signatures db pid + 1
      · have ht2 := transition_status_eff _ pid .Signing .Ready (by decide)
          { p with status := .Signing } ht1.2.1 rfl
        refine ⟨?_, ?_, ?_⟩
        · simp [add_signature, e1, e2, e3, hp, hhash, hmem, hdup, hcs, ht1.1,
                ht2.1, hcount, hth]
        · simp only [add_signature, e1, e2, e3]
          simp [hp, hhash, hmem, hdup, hcs, ht1.1, ht2.1, hcount, hth,
                count_signatures_eq_of_sig_eq _ _ pid ht2.2.2,
                count_signatures_eq_of_sig_eq _ _ pid ht1.2.2]
        · simp [add_signature, e1, e2, e3, hp, hhash, hmem, hdup, hcs, ht1.1,
                ht2.1, ht2.2.1, hcount, hth]
      · refine ⟨?_, ?_, ?_⟩
        · simp [add_signature, e1, e2, e3, hp, hhash, hmem, hdup, hcs, ht1.1,
                hcount, hth]
        · simp [add_signature, e1, e2, e3, hp, hhash, hmem, hdup, hcs, ht1.1,
                hcount, hth, count_signatures_eq_of_sig_eq _ _ pid ht1.2.2]
        · simp [add_signature, e1, e2, e3, hp, hhash, hmem, hdup, hcs, ht1.1,
                ht1.2.1, hcount, hth]
    · have hnc : ¬ (p.status = ProposalStatus.Created) := by simp [hcs]
      by_cases hth : rule.threshold ≤ count_signatures db pid + 1
      · have ht2 := transition_status_eff _ pid .Signing .Ready (by decide) p hins hcs
        refine ⟨?_, ?_, ?_⟩
        · simp [add_signature, e1, e2, e3, hp, hhash, hmem, hdup, hnc, hcs, ht2.1,
                hcount, hth]
        · simp [add_signature, e1, e2, e3, hp, hhash, hmem, hdup, hnc, hcs, ht2.1,
                hcount, hth, count_signatures_eq_of_sig_eq _ _ pid ht2.2.2]
        · simp [add_signature, e1, e2, e3, hp, hhash, hmem, hdup, hnc, hcs, ht2.1,
                ht2.2.1, hcount, hth]
      · refine ⟨?_, ?_, ?_⟩
        · simp [add_signature, e1, e2, e3, hp, hhash, hmem, hdup, hnc, hcs, hcount,
                hth]
        · simp [add_signature, e1, e2, e3, hp, hhash, hmem, hdup, hnc, hcs, hcount,
                hth, count_signatures_eq_of_sig_eq]
        · have hpe : ({ p with status := ProposalStatus.Signing } : ProposalRow)
              = p := by rw [← hcs]
          rw [if_neg hth, hpe]
          simp [add_signature, e1, e2, e3, hp, hhash, hmem, hdup, hnc, hcs, hins,
                hcount, hth]

/-- Witness for C7 at a concrete store: a first valid signature on a
`Created` proposal with threshold 1 succeeds and lands the proposal in
`Ready`. -/
theorem add_signature_transitions_witness :
    (add_signature dbC7 1 wC7 ruleC7 ("sub1") 2).1 = Except.ok ()
    ∧ count_signatures (add_signature dbC7 1 wC7 ruleC7 ("sub1") 2).2 1
        = count_signatures dbC7 1 + 1
    ∧ getProposal (add_signature dbC7 1 wC7 ruleC7 ("sub1") 2).2 1
        = some { rowC7 with status :=
            if ruleC7.threshold ≤ count_signatures dbC7 1 + 1 then
              ProposalStatus.Ready
            else ProposalStatus.Signing } :=
  (add_signature_transitions dbC7 1 wC7 ruleC7 ("sub1") 2 rfl rfl rfl rfl rfl
      (by decide) rowC7 rfl).2 (Or.inl rfl) rfl

/-- C8.  When the sub-intent hash re-derived from the submitted signed
partial differs from the proposal's stored hash, `add_signature` returns
an error whose message contains `"different subintent hash"`, the HTTP
layer maps that message to status 400, no signature row is inserted and
the store (hence the proposal status) is unchanged. -/
theorem add_signature_wrong_hash (db : DbState) (pid : Nat)
    (w : WalletSubmission) (rule : AccessRuleInfo) (expected : String)
    (nid : Nat)
    (hnet : (nid == 0x01 || nid == 0x02 || nid == 0xf2) = true)
    (hne : w.subintent_hash ≠ expected)
    (hnf : strContains (mismatchMsg expected w.subintent_hash) "not found"
        = false) :
    add_signature db pid w rule expected nid
      = (.error (mismatchMsg expected w.subintent_hash), db)
    ∧ strContains (mismatchMsg expected w.subintent_hash)
        "different subintent hash" = true
    ∧ sign_error_http_status (mismatchMsg expected w.subintent_hash) = 400 := by
  have e1 : compute_subintent_hash_from_signed_partial_hex w nid
      = .ok w.subintent_hash := by
    unfold compute_subintent_hash_from_signed_partial_hex
    rw [if_pos hnet]
  refine ⟨?_, mismatchMsg_contains _ _, ?_⟩
  · simp [add_signature, e1, hne]
  · unfold sign_error_http_status
    rw [if_neg (by simp [hnf]),
        if_pos (by simp [mismatchMsg_contains expected w.subintent_hash])]

/-- Witness for C8 at concrete inputs: hash `"h1"` against expected
`"h2"` is rejected with the 400-classified message and an unchanged
store. -/
theorem add_signature_wrong_hash_witness :
    add_signature dbC8 7 wC8
        { signers := [], threshold := 0, is_updatable := false } ("h2") 2
      = (.error (mismatchMsg ("h2") ("h1")), dbC8)
    ∧ strContains (mismatchMsg ("h2") ("h1")) "different subintent hash" = true
    ∧ sign_error_http_status (mismatchMsg ("h2") ("h1")) = 400 :=
  add_signature_wrong_hash dbC8 7 wC8
    { signers := [], threshold := 0, is_updatable := false } ("h2") 2
    rfl (by decide) (by decide)

/-- C10.  Outside the validity monitor the per-signature `is_valid` flag
is never consulted: arbitrarily reassigning every flag changes neither
`count_signatures` (the quantity `add_signature` compares against the
threshold), nor `get_raw_signatures` (the signatures attached at
submission), nor the outcome and resulting proposal rows of
`add_signature` itself. -/
theorem validity_flag_not_consulted (db : DbState) (f : SigRow → Bool)
    (pid : Nat) (w : WalletSubmission) (rule : AccessRuleInfo)
    (expected : String) (nid : Nat) :
    count_signatures (setFlags f db) pid = count_signatures db pid
    ∧ get_raw_signatures (setFlags f db) pid = get_raw_signatures db pid
    ∧ (add_signature (setFlags f db) pid w rule expected nid).1
        = (add_signature db pid w rule expected nid).1
    ∧ (add_signature (setFlags f db) pid w rule expected nid).2.proposals
        = (add_signature db pid w rule expected nid).2.proposals := by
  refine ⟨count_signatures_setFlags f db pid, get_raw_signatures_setFlags f db pid, ?_⟩
  unfold add_signature
  cases hc1 : compute_subintent_hash_from_signed_partial_hex w nid with
  | error e => exact ⟨rfl, rfl⟩
  | ok wh =>
    dsimp only
    by_cases hc2 : wh ≠ expected
    · rw [if_pos hc2, if_pos hc2]
      exact ⟨rfl, rfl⟩
    · rw [if_neg hc2, if_neg hc2]
      cases hc3 : extract_signature_from_hex w with
      | error e => exact ⟨rfl, rfl⟩
      | ok pr =>
        obtain ⟨sb, pk⟩ := pr
        dsimp only
        cases hc4 : compute_key_hash pk with
        | error e => exact ⟨rfl, rfl⟩
        | ok kh =>
          dsimp only
          by_cases hc5 : ¬ (rule.signers.any fun s => s.key_hash == kh) = true
          · rw [if_pos hc5, if_pos hc5]
            exact ⟨rfl, rfl⟩
          · rw [if_neg hc5, if_neg hc5]
            rw [show getProposal (setFlags f db) pid = getProposal db pid from rfl]
            cases hp : getProposal db pid with
            | none => exact ⟨rfl, rfl⟩
            | some p =>
              dsimp only
              by_cases hst : (p.status ≠ ProposalStatus.Created
                  ∧ p.status ≠ ProposalStatus.Signing)
              · rw [if_pos hst, if_pos hst]
                exact ⟨rfl, rfl⟩
              · rw [if_neg hst, if_neg hst]
                rw [show ((sigRowsOf (setFlags f db) pid).any fun r =>
                      r.signer_key_hash == kh)
                    = ((sigRowsOf db pid).any fun r => r.signer_key_hash == kh) by
                  rw [sigRowsOf_setFlags, List.any_map]; rfl]
                by_cases hdup : ((sigRowsOf db pid).any fun r =>
                    r.signer_key_hash == kh) = true
                · rw [if_pos hdup, if_pos hdup]
                  exact ⟨rfl, rfl⟩
                · rw [if_neg hdup, if_neg hdup]
                  have hcnt : count_signatures (insertSignature (setFlags f db)
                      { proposal_id := pid, signer_key_hash := kh,
                        signer_public_key := pk, signature_bytes := sb,
                        is_valid := true }) pid
                      = count_signatures (insertSignature db
                      { proposal_id := pid, signer_key_hash := kh,
                        signer_public_key := pk, signature_bytes := sb,
                        is_valid := true }) pid := by
                    rw [count_signatures_insert _ _ _ rfl,
                        count_signatures_insert _ _ _ rfl,
                        count_signatures_setFlags]
                  have hprop : (insertSignature (setFlags f db)
                      { proposal_id := pid, signer_key_hash := kh,
                        signer_public_key := pk, signature_bytes := sb,
                        is_valid := true }).proposals
                      = (insertSignature db
                      { proposal_id := pid, signer_key_hash := kh,
                        signer_public_key := pk, signature_bytes := sb,
                        is_valid := true }).proposals := rfl
                  by_cases hst2 : p.status = ProposalStatus.Created
                  · rw [if_pos hst2, if_pos hst2]
                    have htr := transition_status_proposals_only _ _ hprop pid
                      .Created .Signing
                    rw [htr.1, hcnt]
                    cases ht : (transition_status (insertSignature db
                        { proposal_id := pid, signer_key_hash := kh,
                          signer_public_key := pk, signature_bytes := sb,
                          is_valid := true }) pid .Created .Signing).1 with
                    | error e => exact ⟨rfl, htr.2⟩
                    | ok u =>
                      by_cases hth : rule.threshold ≤ count_signatures
                          (insertSignature db
                            { proposal_id := pid, signer_key_hash := kh,
                              signer_public_key := pk, signature_bytes := sb,
                              is_valid := true }) pid
                      · rw [if_pos hth, if_pos hth]
                        have htr2 := transition_status_proposals_only _ _ htr.2
                          pid .Signing .Ready
                        rw [htr2.1]
                        cases ht2 : (transition_status (transition_status
                            (insertSignature db
                              { proposal_id := pid, signer_key_hash := kh,
                                signer_public_key := pk, signature_bytes := sb,
                                is_valid := true }) pid .Created .Signing).2
                            pid .Signing .Ready).1 with
                        | error e => exact ⟨rfl, htr2.2⟩
                        | ok u2 => exact ⟨rfl, htr2.2⟩
                      · rw [if_neg hth, if_neg hth]
                        exact ⟨rfl, htr.2⟩
                  · rw [if_neg hst2, if_neg hst2]
                    rw [hcnt]
                    by_cases hth : rule.threshold ≤ count_signatures
                        (insertSignature db
                          { proposal_id := pid, signer_key_hash := kh,
                            signer_public_key := pk, signature_bytes := sb,
                            is_valid := true }) pid
                    · rw [if_pos hth, if_pos hth]
                      have htr2 := transition_status_proposals_only _ _ hprop
                        pid .Signing .Ready
                      rw [htr2.1]
                      cases ht2 : (transition_status (insertSignature db
                          { proposal_id := pid, signer_key_hash := kh,
                            signer_public_key := pk, signature_bytes := sb,
                            is_valid := true }) pid .Signing .Ready).1 with
                      | error e => exact ⟨rfl, htr2.2⟩
                      | ok u2 => exact ⟨rfl, htr2.2⟩
                    · rw [if_neg hth, if_neg hth]
                      exact ⟨rfl, rfl⟩

/-- C4.  After a single validity-monitor tick in which signer `s` is
absent from the live access rule: on every proposal that was active in
`Signing` or `Ready` and not epoch-expired, every signature by `s` ends
with `is_valid = false`; and if `s` had a previously valid signature
there and the count of signatures still valid under the live rule is
below the live threshold, the proposal ends `Invalid` with the monitor's
reason naming the removed key hashes (abbreviated), `s` among them. -/
theorem monitor_drift (db : DbState) (current_epoch : Nat)
    (rule : AccessRuleInfo) (s : String)
    (hids : (db.proposals.map (fun p => p.id)).Nodup)
    (hs : (liveHashes rule).contains s = false)
    (p : ProposalRow) (hp : p ∈ db.proposals)
    (hact : p.status = .Signing ∨ p.status = .Ready)
    (hexp : current_epoch < p.epoch_max) :
    (∀ r ∈ (check_proposals db current_epoch rule).signatures,
        r.proposal_id = p.id → r.signer_key_hash = s → r.is_valid = false)
    ∧ ((∃ r ∈ db.signatures, r.proposal_id = p.id ∧ r.signer_key_hash = s
          ∧ r.is_valid = true) →
       liveValidCount db (liveHashes rule) p.id < rule.threshold →
       ∃ q ∈ (check_proposals db current_epoch rule).proposals,
         q.id = p.id ∧ q.status = .Invalid
         ∧ q.invalid_reason
             = some (mkInvalidReason (removedOf db (liveHashes rule) p.id))
         ∧ s ∈ removedOf db (liveHashes rule) p.id) := by
  have hpa : p.status.isActive = true := isActive_of_signing_or_ready p.status hact
  have hpact : p ∈ list_active db := List.mem_filter.mpr ⟨hp, hpa⟩
  have hne : ¬ ((list_active db).isEmpty = true) := by
    intro h
    rw [List.isEmpty_iff.mp h] at hpact
    exact absurd hpact (List.not_mem_nil p)
  obtain ⟨s2, ssig, sprop⟩ := expireFold_spec current_epoch (list_active db) db []
  have hinj : ∀ q ∈ db.proposals, q.id = p.id → q = p := fun q hq he =>
    List.inj_on_of_nodup_map hids hq hp he
  have hframe_cond : ∀ q ∈ list_active db,
      q.epoch_max ≤ current_epoch → q.id ≠ p.id := by
    intro q hq hqe hqid
    have hqp : q = p := hinj q (List.mem_of_mem_filter hq) hqid
    rw [hqp] at hqe
    exact absurd hqe (Nat.not_le.mpr hexp)
  have hrow0 : propRowsOf db p.id = [p] := propRowsOf_single db.proposals hids p hp
  have hrow1 : propRowsOf
      ((list_active db).foldl (expireStep current_epoch) (db, [])).1 p.id = [p] := by
    rw [sprop p.id hframe_cond]
    exact hrow0
  have hsig1 : sigRowsOf
      ((list_active db).foldl (expireStep current_epoch) (db, [])).1 p.id
      = sigRowsOf db p.id := sigRowsOf_congr _ db p.id ssig
  have hpred : (!(decide (p.epoch_max ≤ current_epoch))) = true := by
    simp [Nat.not_le.mpr hexp]
  have hpstill : p ∈ ((list_active db).foldl (expireStep current_epoch) (db, [])).2 := by
    rw [s2]
    simp only [List.nil_append]
    exact List.mem_filter.mpr ⟨hpact, hpred⟩
  have hnodupstill : ((((list_active db).foldl (expireStep current_epoch)
      (db, [])).2).map (fun q => q.id)).Nodup := by
    rw [s2]
    simp only [List.nil_append]
    have h1 : ((list_active db).filter
          (fun q => !(decide (q.epoch_max ≤ current_epoch)))).Sublist db.proposals :=
      (List.filter_sublist _).trans (List.filter_sublist _)
    exact List.Nodup.sublist (List.Sublist.map (fun q => q.id) h1) hids
  have hguard : ((((list_active db).foldl (expireStep current_epoch)
      (db, [])).2).any (fun q => q.status == ProposalStatus.Signing
        || q.status == ProposalStatus.Ready)) = true := by
    apply List.any_eq_true.mpr
    exact ⟨p, hpstill, by rcases hact with h | h <;> simp [h]⟩
  obtain ⟨G1, G2⟩ := phase2Fold_spec (liveHashes rule) rule.threshold p hact _ _
    hpstill hnodupstill hrow1
  have hrem1 : removedOf
      ((list_active db).foldl (expireStep current_epoch) (db, [])).1
      (liveHashes rule) p.id = removedOf db (liveHashes rule) p.id :=
    removedOf_congr _ db (liveHashes rule) p.id hsig1
  have hlvc1 : liveValidCount
      ((list_active db).foldl (expireStep current_epoch) (db, [])).1
      (liveHashes rule) p.id = liveValidCount db (liveHashes rule) p.id :=
    liveValidCount_congr _ db (liveHashes rule) p.id hsig1
  have hfinal : check_proposals db current_epoch rule
      = (((list_active db).foldl (expireStep current_epoch) (db, [])).2).foldl
          (phase2ProcessOne (liveHashes rule) rule.threshold)
          ((list_active db).foldl (expireStep current_epoch) (db, [])).1 := by
    unfold check_proposals
    rw [if_neg hne, if_pos hguard]
  constructor
  · intro r hrmem hrpid hrkh
    have hrin : r ∈ sigRowsOf (check_proposals db current_epoch rule) p.id :=
      List.mem_filter.mpr ⟨hrmem, by simp [hrpid]⟩
    rw [hfinal] at hrin
    rw [G1, hsig1, hrem1] at hrin
    obtain ⟨r0, hr0mem, hr0eq⟩ := List.mem_map.mp hrin
    by_cases hc : (r0.proposal_id == p.id
        && (removedOf db (liveHashes rule) p.id).contains r0.signer_key_hash)
        = true
    · rw [← hr0eq]
      unfold invalidateMany
      rw [if_pos hc]
    · rw [← hr0eq]
      unfold invalidateMany
      rw [if_neg hc]
      by_cases hval : r0.is_valid = true
      · exfalso
        have hkh0 : r0.signer_key_hash = s := by
          rw [← hrkh, ← hr0eq]
          unfold invalidateMany
          split
          · rfl
          · rfl
        have hr0pid : r0.proposal_id = p.id := by
          simpa using (List.mem_filter.mp hr0mem).2
        have hmem := mem_removedOf_of_valid db (liveHashes rule) p.id r0 hr0mem
          hval (by rw [hkh0]; exact hs)
        exact hc (by simp [hr0pid, hmem])
      · simpa using hval
  · rintro ⟨r, hrmem, hrpid, hrkh, hrval⟩ hcnt
    have hrin : r ∈ sigRowsOf db p.id :=
      List.mem_filter.mpr ⟨hrmem, by simp [hrpid]⟩
    have hsmem : s ∈ removedOf db (liveHashes rule) p.id := by
      rw [← hrkh]
      exact mem_removedOf_of_valid db (liveHashes rule) p.id r hrin hrval
        (by rw [hrkh]; exact hs)
    have hne2 : removedOf db (liveHashes rule) p.id ≠ [] :=
      List.ne_nil_of_mem hsmem
    have hfin := G2 (by rw [hrem1]; exact hne2) (by rw [hlvc1]; exact hcnt)
    rw [hrem1] at hfin
    unfold propRowsOf at hfin
    have hm : ({ p with status := .Invalid, invalid_reason := some (mkInvalidReason (removedOf db (liveHashes rule) p.id)) } : ProposalRow)
        ∈ ((((list_active db).foldl (expireStep current_epoch) (db, [])).2).foldl
            (phase2ProcessOne (liveHashes rule) rule.threshold)
            ((list_active db).foldl (expireStep current_epoch) (db, [])).1).proposals.filter
          (fun q => q.id == p.id) := by
      rw [hfin]
      exact List.mem_singleton.mpr rfl
    refine ⟨{ p with status := .Invalid, invalid_reason := some (mkInvalidReason (removedOf db (liveHashes rule) p.id)) }, ?_, rfl, rfl, rfl, hsmem⟩
    rw [hfinal]
    exact List.mem_of_mem_filter hm

/-- Witness for C4 at a concrete store: after the tick, the removed
signer's signature is invalid and the proposal is `Invalid` with the
monitor's reason naming the abbreviated hash. -/
theorem monitor_drift_witness :
    (∀ r ∈ (check_proposals dbC4 5 ruleC4).signatures,
        r.proposal_id = rowC4.id → r.signer_key_hash = sC4 → r.is_valid = false)
    ∧ (∃ q ∈ (check_proposals dbC4 5 ruleC4).proposals,
        q.id = rowC4.id ∧ q.status = .Invalid
        ∧ q.invalid_reason
            = some (mkInvalidReason (removedOf dbC4 (liveHashes ruleC4) rowC4.id))
        ∧ sC4 ∈ removedOf dbC4 (liveHashes ruleC4) rowC4.id) :=
  ⟨(monitor_drift dbC4 5 ruleC4 sC4 (by decide) rfl rowC4 (by decide)
      (Or.inl rfl) (by decide)).1,
   (monitor_drift dbC4 5 ruleC4 sC4 (by decide) rfl rowC4 (by decide)
      (Or.inl rfl) (by decide)).2
     ⟨sigC4, by decide, rfl, rfl, rfl⟩ (by decide)⟩

/-- Witness for C6's amended theorem: a `CountOf` rule with `count = 300`
over one badge parses to threshold `300 % 256 = 44` and one signer. -/
theorem parse_access_rule_shapes_witness :
    parse_access_rule (mkCountOfRule 300 [c6SmallBadge])
      = .ok { signers := [c6SmallSigner], threshold := 300 % 256,
              is_updatable := false }
    ∧ [c6SmallSigner].length = [c6SmallBadge].length :=
  parse_access_rule_shapes.1 300 [c6SmallBadge] [c6SmallSigner] rfl

end Multisig
